import Mathlib

set_option maxRecDepth 1000000
set_option maxHeartbeats 1000000

/-!
Verification of the content-scheduling pipeline
(`scripts/pipeline.mjs`, `scripts/ingest.mjs`).

Modelling conventions:

* Calendar dates (the `YYYY-MM-DD` ISO strings of the source) are modelled as
  day numbers `d : Nat`.  Lexicographic order on ISO date strings coincides
  with chronological order, so string comparison in the source becomes `≤`/`<`
  on `Nat`.  `new Date(iso+"T12:00:00Z").getUTCDay()` becomes `d % 7`, with the
  epoch aligned so that day `0` is a Sunday; `addDaysISO`/`nextISO` become
  addition.
* A file name is opaque to the source except for a handful of observations
  (`path.extname`, `endsWith ".txt"`, the `\d{4}-\d{2}-\d{2}` regex match,
  `startsWith(date + ".")`).  Post files and image files are therefore
  modelled as records carrying the name together with those observations;
  the pipeline only ever creates files whose fields are consistent with the
  name it writes (`${cursor}.txt`, `${cursor}${ext}`).
* Directory listings are lists; `fs.rename` into a directory is list append
  plus removal from the source directory; `fs.rm` is `List.filter` on the
  name.  The `.gitkeep` placeholder files that every stage filters out are
  simply not represented.
* `JSON` artifacts keep only the data the claims mention: `generated_at`
  timestamps are dropped, `image_url` is determined by `image_file` and is
  not duplicated.
* JavaScript `sort` (both the default one and the `localeCompare` comparator)
  is a stable sort; it is modelled by `List.insertionSort`, which is stable,
  over `≤` on the corresponding key.
-/

namespace ContentPipeline

/-! ### Date helpers (`pipeline.mjs` lines 21-39, `ingest.mjs` lines 15-29) -/

/-- `isWeekdayISO`: `getUTCDay()` of the date is in `1..5` (Mon..Fri). -/
def isWeekdayISO (d : Nat) : Bool :=
  decide (1 ≤ d % 7) && decide (d % 7 ≤ 5)

/-- `addDaysISO(iso, days)`: shift a date by a number of days. -/
def addDaysISO (d : Nat) (days : Nat) : Nat := d + days

/-- `nextISO(iso)` from `ingest.mjs`: the following day. -/
def nextISO (d : Nat) : Nat := d + 1

/-- The loop body of `nextWeekdayISO`, with explicit fuel.  The source loop
`while (!isWeekdayISO(cur)) cur = addDaysISO(cur, 1)` advances at most two
days (a weekend has two days), so any fuel `≥ 2` computes the same value;
`nextWeekdayAux_isWeekday` below proves that fuel `7` always suffices. -/
def nextWeekdayAux : Nat → Nat → Nat
  | 0, d => d
  | fuel + 1, d => if isWeekdayISO d then d else nextWeekdayAux fuel (d + 1)

/-- `nextWeekdayISO(iso)`: first weekday on or after the given date. -/
def nextWeekdayISO (d : Nat) : Nat := nextWeekdayAux 7 d

/-! ### File names

Node's `path.extname(name)`: the final extension of the name, i.e. the
substring starting at the last `.` of the name, or `""` when there is no `.`
or the only `.` is the leading character (a dotfile). -/

/-- `path.extname`, computed on the character list of the name. -/
def extname (n : String) : String :=
  let cs := n.toList
  let after := (cs.reverse.takeWhile (fun c => !(c == '.'))).reverse
  if after.length == cs.length then ""
  else if cs.length == after.length + 1 then ""
  else String.mk ('.' :: after)

/-- `toLowerCase`, character by character. -/
def lowerStr (s : String) : String := String.mk (s.toList.map Char.toLower)

/-- `startsWith` on character lists. -/
def listStartsWith : List Char → List Char → Bool
  | _, [] => true
  | [], _ :: _ => false
  | a :: as, b :: bs => a == b && listStartsWith as bs

/-- JavaScript `String.startsWith`. -/
def strStartsWith (s pre : String) : Bool :=
  listStartsWith s.toList pre.toList

/-- `split` on a single separator character, on character lists. -/
def splitOnChar (sep : Char) : List Char → List (List Char)
  | [] => [[]]
  | c :: cs =>
    let r := splitOnChar sep cs
    if c == sep then [] :: r
    else
      match r with
      | h :: t => (c :: h) :: t
      | [] => [[c]]

/-- JavaScript `String.split` with a one-character separator. -/
def strSplitOn (s : String) (sep : Char) : List String :=
  (splitOnChar sep s.toList).map String.mk

/-- JavaScript `String.trim`: strip whitespace from both ends. -/
def trimStr (s : String) : String :=
  String.mk
    (((s.toList.dropWhile Char.isWhitespace).reverse.dropWhile
      Char.isWhitespace).reverse)

/-- A file sitting in one of the two inbox (staging) directories.  The text
`content` moves along with the file; for staged images it is unused. -/
structure InFile where
  name : String
  content : String
deriving DecidableEq

/-- A file of the `content/posts` store directory, carrying the observations
the source makes of it: its `name` (used by `fs.rm`), whether the name ends in
`".txt"`, the first `YYYY-MM-DD` substring of the name if any (the result of
`parseISOFromName`), and its text content (read by the index builder). -/
structure PostFile where
  name : String
  endsTxt : Bool
  dateInName : Option Nat
  text : String
deriving DecidableEq

/-- A file of the `content/images` directory.  `leadDate` is the date `d`
such that the name starts with the ISO rendering of `d`, if any; `rest` is
the remainder of the name after that prefixed date (the whole name when
`leadDate = none`).  Since ISO dates are fixed-width, the source's test
`name.startsWith(date + ".")` is `leadDate = some date` together with
`rest` starting with `"."`. -/
structure ImgFile where
  leadDate : Option Nat
  rest : String
deriving DecidableEq

/-- `parseISOFromName` (`pipeline.mjs` line 40, `ingest.mjs` line 46):
the first `YYYY-MM-DD` substring of a post-file name, as recorded in the
`dateInName` field. -/
def parseISOFromName (f : PostFile) : Option Nat := f.dateInName

/-- The canonical name `${cursor}.txt` given to a post moved into the store
(with dates rendered as day numbers). -/
def isoTxtName (d : Nat) : String := toString d ++ ".txt"

/-- The post file created by moving staged content to `${cursor}.txt`. -/
def mkContentPost (d : Nat) (f : InFile) : PostFile :=
  { name := isoTxtName d, endsTxt := true, dateInName := some d, text := f.content }

/-- The image file created by moving a staged image to `${cursor}${imgExt}`
where `imgExt = path.extname(imageName).toLowerCase()`. -/
def mkContentImage (d : Nat) (imageName : String) : ImgFile :=
  { leadDate := some d, rest := lowerStr (extname imageName) }

/-- One entry of the generated `index.json` `posts` array.  `image_file` and
`image_url` are both determined by the image file, kept once. -/
structure IndexEntry where
  date : Nat
  text : String
  image : ImgFile
deriving DecidableEq

/-- The filesystem state the two scripts operate on: the staging
directories, the optional pairing manifest (its raw text), the canonical
content store, and the generated `docs/` artifacts.  `alerts` is the
in-memory message array threaded through a `pipeline.mjs` run;
`alertsFile` is the persisted `docs/alerts.json` artifact and
`alertsWrites` counts how many times it has been written. -/
structure PipeState where
  inboxPosts : List InFile
  inboxImages : List InFile
  manifest : Option String
  contentPosts : List PostFile
  contentImages : List ImgFile
  docsImages : List ImgFile
  docsIndex : List IndexEntry
  docsIndexCount : Nat
  docsOutbox : Option IndexEntry
  alerts : List String
  alertsFile : Option (List String)
  alertsWrites : Nat
deriving DecidableEq

/-! ### Shared constants (`pipeline.mjs` lines 16-19, `ingest.mjs` line 13) -/

def MAX_PAIRS : Nat := 200

def POST_EXTS : List String := [".txt", ".md"]

def IMAGE_EXTS : List String := [".png", ".jpg", ".jpeg"]

/-- Sorting comparator for staged files: `(a,b) => a.localeCompare(b)` in
`pipeline.mjs` and default `sort()` in `ingest.mjs`, modelled as the
lexicographic order on the name's characters. -/
def nameLe (a b : InFile) : Prop := a.name.toList ≤ b.name.toList

instance : DecidableRel nameLe := fun a b =>
  inferInstanceAs (Decidable (a.name.toList ≤ b.name.toList))

/-- Sorting comparator of the store scan: `(a,b) => a.date.localeCompare(b.date)`
on the parsed dates. -/
def dateLe (a b : PostFile) : Prop :=
  a.dateInName.getD 0 ≤ b.dateInName.getD 0

instance : DecidableRel dateLe := fun a b =>
  inferInstanceAs (Decidable (a.dateInName.getD 0 ≤ b.dateInName.getD 0))

instance : IsTotal PostFile dateLe :=
  ⟨fun a b => Nat.le_total _ _⟩

instance : IsTrans PostFile dateLe :=
  ⟨fun _ _ _ h₁ h₂ => Nat.le_trans h₁ h₂⟩

instance : IsTotal InFile nameLe :=
  ⟨fun a b => le_total a.name.toList b.name.toList⟩

instance : IsTrans InFile nameLe :=
  ⟨fun _ _ _ h₁ h₂ => le_trans h₁ h₂⟩

/-! ### The slot-allocation loop of `pipeline.mjs` (lines 130-153)

For each staged pair the source runs
`while (used.has(cursor) || !isWeekdayISO(cursor)) cursor = nextWeekdayISO(addDaysISO(cursor, 1));`
then assigns `cursor`, inserts it into `used` and advances the cursor to the
next weekday.  The inner `while` loop is modelled with explicit fuel: the
cursor strictly increases at every iteration and, once it is a weekday past
every element of `used`, the loop stops; `used.length + 2` iterations always
suffice (`advanceFreeAux_spec` below). -/

/-- One fuel-indexed unfolding of the collision-avoidance `while` loop. -/
def advanceFreeAux (used : List Nat) : Nat → Nat → Nat
  | 0, cursor => cursor
  | fuel + 1, cursor =>
    if used.contains cursor || !isWeekdayISO cursor then
      advanceFreeAux used fuel (nextWeekdayISO (addDaysISO cursor 1))
    else cursor

/-- The collision-avoidance loop: first date `≥ cursor` that is a weekday
and not yet occupied. -/
def advanceFree (used : List Nat) (cursor : Nat) : Nat :=
  advanceFreeAux used (used.length + 2) cursor

/-- The `for` loop over the staged pairs: returns, in input order, the
assigned date together with the staged post and image consumed by it. -/
def allocLoop (used : List Nat) (cursor : Nat) :
    List (InFile × InFile) → List (Nat × InFile × InFile)
  | [] => []
  | (p, img) :: rest =>
    let c := advanceFree used cursor
    (c, p, img) :: allocLoop (c :: used) (nextWeekdayISO (addDaysISO c 1)) rest

/-! #### Correctness of the fuel bound -/

/-- Loop measure: occupied dates not yet passed, plus one if the cursor
still sits on a weekend. -/
def freeMeasure (used : List Nat) (cursor : Nat) : Nat :=
  (used.filter (fun x => cursor ≤ x)).length + (!(isWeekdayISO cursor)).toNat

/-- The dates assigned by one allocation run, in pair input order. -/
def allocDates (used : List Nat) (cursor : Nat)
    (pairs : List (InFile × InFile)) : List Nat :=
  (allocLoop used cursor pairs).map (fun m => m.1)

/-! ### Alert messages

The French diagnostic strings of the source, with apostrophes and non-ASCII
characters transliterated; dates and counts are rendered with `toString`. -/

def postExtMsg : String :=
  "Inbox posts: extensions non supportees (autorise: .txt, .md)."

def imgExtMsg : String :=
  "Inbox images: extensions non supportees (autorise: .png, .jpg, .jpeg)."

def waitingImagesMsg (n : Nat) : String :=
  "En attente d images: " ++ toString n ++ " post(s) en inbox."

def waitingPostsMsg (n : Nat) : String :=
  "En attente de posts: " ++ toString n ++ " image(s) en inbox."

def modeMsg (c : Nat) : String :=
  "Mode sans manifest: slots (1 post + 1 image) a partir de " ++
    toString c ++ " (lun-ven)."

def assocMsg : String :=
  "Association post/image: tri alphabetique dans chaque inbox (stable)."

def summaryMsg (created remPosts remImgs : Nat) : String :=
  "Slots crees: " ++ toString created ++ ". Reste en inbox -> posts: " ++
    toString remPosts ++ ", images: " ++ toString remImgs ++ "."

def pruneMsg (n : Nat) : String :=
  "Purge: suppression de " ++ toString n ++ " slot(s) pour rester a " ++
    toString MAX_PAIRS ++ "."

def missingImgMsg (d : Nat) : String :=
  "Anomalie: image manquante pour " ++ toString d ++ " (content/images)."

def mismatchMsg (p i : Nat) : String :=
  "Inbox mismatch: " ++ toString p ++ " posts vs " ++ toString i ++ " images"

def missingPostMsg (n : String) : String := "Missing post in inbox: " ++ n

def missingImageMsg (n : String) : String := "Missing image in inbox: " ++ n

def unsupportedExtMsg (n : String) : String :=
  "Unsupported image extension: " ++ n

def pipelineErrMsg (e : String) : String := "Pipeline error: " ++ e

/-! ### `renameInboxToContent` (`pipeline.mjs` lines 79-159)

The allocation stage: validate extensions, pair the two staged lists
alphabetically, allocate weekday slots from tomorrow (or after the last
scheduled date), and move the pairs into the content store. -/

def renameInboxToContent (today : Nat) (s : PipeState) : PipeState :=
  if s.inboxPosts.isEmpty && s.inboxImages.isEmpty then s
  else
    let inboxPosts := (s.inboxPosts.filter
      (fun f => POST_EXTS.contains (lowerStr (extname f.name)))).insertionSort nameLe
    let inboxImages := (s.inboxImages.filter
      (fun f => IMAGE_EXTS.contains (lowerStr (extname f.name)))).insertionSort nameLe
    if inboxPosts.length ≠ s.inboxPosts.length then
      { s with alerts := s.alerts ++ [postExtMsg] }
    else if inboxImages.length ≠ s.inboxImages.length then
      { s with alerts := s.alerts ++ [imgExtMsg] }
    else
      let pairsToCreate := min inboxPosts.length inboxImages.length
      if pairsToCreate = 0 then
        { s with alerts := s.alerts ++
            (if 0 < inboxPosts.length then [waitingImagesMsg inboxPosts.length] else []) ++
            (if 0 < inboxImages.length then [waitingPostsMsg inboxImages.length] else []) }
      else
        let cursor0 := nextWeekdayISO (addDaysISO today 1)
        let existingDates :=
          (s.contentPosts.filterMap parseISOFromName).insertionSort (· ≤ ·)
        let cursor :=
          match existingDates.getLast? with
          | none => cursor0
          | some last =>
            let afterLast := nextWeekdayISO (addDaysISO last 1)
            if cursor0 < afterLast then afterLast else cursor0
        let moves := allocLoop existingDates cursor
          ((inboxPosts.take pairsToCreate).zip (inboxImages.take pairsToCreate))
        { s with
          contentPosts :=
            s.contentPosts ++ moves.map (fun m => mkContentPost m.1 m.2.1),
          contentImages :=
            s.contentImages ++ moves.map (fun m => mkContentImage m.1 m.2.2.name),
          inboxPosts := s.inboxPosts.filter
            (fun f => !(moves.any (fun m => m.2.1.name == f.name))),
          inboxImages := s.inboxImages.filter
            (fun f => !(moves.any (fun m => m.2.2.name == f.name))),
          alerts := s.alerts ++
            [modeMsg cursor, assocMsg,
             summaryMsg moves.length (inboxPosts.length - moves.length)
               (inboxImages.length - moves.length)] }

/-- The dates assigned by a `renameInboxToContent` run, as a projection of
the same computation: `[]` on every early-return branch, the dates of the
allocation loop otherwise. -/
def pipelineAssignedDates (today : Nat) (s : PipeState) : List Nat :=
  if s.inboxPosts.isEmpty && s.inboxImages.isEmpty then []
  else
    let inboxPosts := (s.inboxPosts.filter
      (fun f => POST_EXTS.contains (lowerStr (extname f.name)))).insertionSort nameLe
    let inboxImages := (s.inboxImages.filter
      (fun f => IMAGE_EXTS.contains (lowerStr (extname f.name)))).insertionSort nameLe
    if inboxPosts.length ≠ s.inboxPosts.length then []
    else if inboxImages.length ≠ s.inboxImages.length then []
    else
      let pairsToCreate := min inboxPosts.length inboxImages.length
      if pairsToCreate = 0 then []
      else
        let cursor0 := nextWeekdayISO (addDaysISO today 1)
        let existingDates :=
          (s.contentPosts.filterMap parseISOFromName).insertionSort (· ≤ ·)
        let cursor :=
          match existingDates.getLast? with
          | none => cursor0
          | some last =>
            let afterLast := nextWeekdayISO (addDaysISO last 1)
            if cursor0 < afterLast then afterLast else cursor0
        allocDates existingDates cursor
          ((inboxPosts.take pairsToCreate).zip (inboxImages.take pairsToCreate))

/-! ### `pruneTo200` (`pipeline.mjs` lines 161-180) -/

/-- Deleting one pruned slot: remove its text artifact by name, and every
image whose name starts with the slot's date followed by a dot. -/
def pruneStep (st : PipeState) (p : PostFile) : PipeState :=
  { st with
    contentPosts := st.contentPosts.filter (fun g => !(g.name == p.name)),
    contentImages := st.contentImages.filter (fun im =>
      !(im.leadDate == p.dateInName && strStartsWith im.rest ("."))) }

/-- The re-scan of the store shared by the pruner and the index builder
(`pipeline.mjs` lines 162-166 and 195-199): keep the `.txt` files carrying a
parseable date, sorted ascending by that date. -/
def sortedStoreScan (s : PipeState) : List PostFile :=
  ((s.contentPosts.filter (fun f => f.endsTxt)).filter
    (fun f => (parseISOFromName f).isSome)).insertionSort dateLe

/-- The slots `pruneTo200` deletes: the chronologically oldest
`count - MAX_PAIRS` entries of the store scan (empty when within the cap). -/
def pruneDeleteList (s : PipeState) : List PostFile :=
  (sortedStoreScan s).take ((sortedStoreScan s).length - MAX_PAIRS)

def pruneTo200 (s : PipeState) : PipeState :=
  let posts := sortedStoreScan s
  if posts.length ≤ MAX_PAIRS then s
  else
    let toDelete := posts.take (posts.length - MAX_PAIRS)
    let s' := toDelete.foldl pruneStep s
    { s' with alerts := s'.alerts ++ [pruneMsg toDelete.length] }

/-! ### `copyImagesToDocs` (`pipeline.mjs` lines 182-192): full replacement
of the public mirror by the current store images. -/

def copyImagesToDocs (s : PipeState) : PipeState :=
  { s with docsImages := s.contentImages }

/-! ### `buildIndexAndOutbox` (`pipeline.mjs` lines 194-234) -/

/-- The body of the index-building loop: look up the slot's image by
date-prefix match; on success emit an index entry, otherwise report an
anomaly and skip the date. -/
def indexStep (contentImages : List ImgFile)
    (acc : List IndexEntry × List String) (p : PostFile) :
    List IndexEntry × List String :=
  match contentImages.find? (fun im =>
      im.leadDate == p.dateInName && strStartsWith im.rest (".")) with
  | none => (acc.1, acc.2 ++ [missingImgMsg (p.dateInName.getD 0)])
  | some img =>
    (acc.1 ++ [{ date := p.dateInName.getD 0, text := p.text, image := img }],
     acc.2)

def buildIndexAndOutbox (today : Nat) (s : PipeState) : PipeState :=
  let postFiles := sortedStoreScan s
  let build := postFiles.foldl (indexStep s.contentImages) ([], s.alerts)
  let todayPost := build.1.find? (fun p => p.date == today)
  { s with
    docsIndex := build.1,
    docsIndexCount := build.1.length,
    alerts := build.2,
    docsOutbox :=
      match todayPost with
      | some tp => some tp
      | none => if s.docsOutbox.isSome then none else s.docsOutbox }

/-! ### `writeAlerts` and `main` (`pipeline.mjs` lines 72-77 and 236-251) -/

/-- `safeWriteJSON(docs/alerts.json, {generated_at, messages})`: a full
overwrite of the alerts artifact. -/
def writeAlertsWith (messages : List String) (s : PipeState) : PipeState :=
  { s with alertsFile := some messages, alertsWrites := s.alertsWrites + 1 }

def writeAlerts (s : PipeState) : PipeState := writeAlertsWith s.alerts s

/-- One complete `pipeline.mjs` run: fresh alerts array, then the four
stages in order, then the alerts artifact. -/
def mainRun (today : Nat) (s : PipeState) : PipeState :=
  writeAlerts
    (buildIndexAndOutbox today
      (copyImagesToDocs
        (pruneTo200
          (renameInboxToContent today { s with alerts := [] }))))

/-- The top-level `main().catch(...)` handler (`pipeline.mjs` lines
248-251), applied to whatever state the run had reached when the
unexpected failure was raised: it writes the alerts artifact with the
single failure summary. -/
def pipelineCatch (e : String) (s : PipeState) : PipeState :=
  writeAlertsWith [pipelineErrMsg e] s

/-! ### `ingest.mjs` -/

/-- One line of `manifest.csv` (already trimmed and non-blank): `#`-comments
are skipped, the line is split on `","`, the first two trimmed fields form a
pair when both are non-empty. -/
def parseManifestLine (l : String) : Option (String × String) :=
  if strStartsWith l ("#") then none
  else
    match (strSplitOn l (',')).map trimStr with
    | postName :: imageName :: _ =>
      if postName ≠ "" && imageName ≠ "" then some (postName, imageName)
      else none
    | _ => none

/-- `readManifest` (`ingest.mjs` lines 55-67): `none` when the manifest file
is absent or yields no pair. -/
def readManifest (raw : Option String) : Option (List (String × String)) :=
  match raw with
  | none => none
  | some raw =>
    let lines := ((strSplitOn raw ('\n')).map trimStr).filter (fun l => l ≠ "")
    let pairs := lines.filterMap parseManifestLine
    if pairs.isEmpty then none else some pairs

/-- `nextAvailableStartDate` (`ingest.mjs` lines 69-86): start from the day
after the last scheduled date, but never before today, then advance to a
weekday.  Note the baseline is today itself, not tomorrow. -/
def nextAvailableStartDate (today : Nat) (outPosts : List PostFile) : Nat :=
  let existing := (outPosts.filterMap parseISOFromName).insertionSort (· ≤ ·)
  let start :=
    match existing.getLast? with
    | none => today
    | some last => if nextISO last < today then today else nextISO last
  nextWeekdayISO start

/-- The validation loop of `ingest` (lines 111-119): each pair's post and
image must exist in the inbox and the image extension must be allowed;
the first failure aborts the run. -/
def validatePair (s : PipeState) (pr : String × String) : Option String :=
  if !(s.inboxPosts.any (fun f => f.name == pr.1)) then
    some (missingPostMsg pr.1)
  else if !(s.inboxImages.any (fun f => f.name == pr.2)) then
    some (missingImageMsg pr.2)
  else if !(IMAGE_EXTS.contains (lowerStr (extname pr.2))) then
    some (unsupportedExtMsg pr.2)
  else none

/-- The move loop of `ingest` (lines 124-141): for each pair, skip weekends,
move the post to `${cursor}.txt` and the image to `${cursor}${imgExt}`,
then advance the cursor one day. -/
def ingestLoop (s : PipeState) (cursor : Nat) :
    List (String × String) → PipeState
  | [] => s
  | (postName, imageName) :: rest =>
    let c := nextWeekdayISO cursor
    let post := s.inboxPosts.find? (fun f => f.name == postName)
    let s' := { s with
      inboxPosts := s.inboxPosts.filter (fun f => !(f.name == postName)),
      inboxImages := s.inboxImages.filter (fun f => !(f.name == imageName)),
      contentPosts := s.contentPosts ++
        [{ name := isoTxtName c, endsTxt := true, dateInName := some c,
           text := ((post.map (fun f => f.content)).getD "") }],
      contentImages := s.contentImages ++ [mkContentImage c imageName] }
    ingestLoop s' (nextISO c) rest

/-- One complete `ingest.mjs` run (`ingest` at lines 88-142).  Failures are
surfaced as `Except.error`; every `throw` of the source happens before any
file is moved, so an error leaves the state unchanged.  The run never
touches `docs/` (in particular it never writes the alerts artifact). -/
def ingestRun (today : Nat) (s : PipeState) : Except String PipeState :=
  let inboxPosts := s.inboxPosts.insertionSort nameLe
  let inboxImages := s.inboxImages.insertionSort nameLe
  if inboxPosts.isEmpty && inboxImages.isEmpty then .ok s
  else if inboxPosts.length ≠ inboxImages.length then
    .error (mismatchMsg inboxPosts.length inboxImages.length)
  else
    let pairs :=
      match readManifest s.manifest with
      | some ps => ps
      | none => (inboxPosts.zip inboxImages).map (fun pr => (pr.1.name, pr.2.name))
    match pairs.findSome? (validatePair s) with
    | some err => .error err
    | none => .ok (ingestLoop s (nextAvailableStartDate today s.contentPosts) pairs)

/-- The image lookup of the index builder succeeds for this slot. -/
def hasImage (contentImages : List ImgFile) (p : PostFile) : Bool :=
  (contentImages.find? (fun im =>
    im.leadDate == p.dateInName && strStartsWith im.rest ("."))).isSome

/-- The index entry emitted for a slot whose image lookup succeeds. -/
def entryOf (contentImages : List ImgFile) (p : PostFile) : IndexEntry :=
  { date := p.dateInName.getD 0, text := p.text,
    image := (contentImages.find? (fun im =>
      im.leadDate == p.dateInName && strStartsWith im.rest ("."))).getD
        { leadDate := none, rest := "" } }

/-! ### Concrete states used to witness and refute the claims.

Day numbers: `8` is a Monday (`8 % 7 = 1`), `9` a Tuesday, `13`/`14` the
following weekend. -/

/-- A filesystem state with empty staging areas, an empty store and no
generated artifacts. -/
def emptyState : PipeState :=
  { inboxPosts := [], inboxImages := [], manifest := none,
    contentPosts := [], contentImages := [], docsImages := [],
    docsIndex := [], docsIndexCount := 0, docsOutbox := none,
    alerts := [], alertsFile := none, alertsWrites := 0 }

/-- A store holding 201 dated slots (dates `1..201`, one above the cap)
together with one image artifact whose name is the date `1` followed by
`"x.png"` — prefixed by the date, but not by the date and a dot. -/
def c3State : PipeState :=
  { emptyState with
    contentPosts := (List.range 201).map (fun i =>
      { name := isoTxtName (i + 1), endsTxt := true,
        dateInName := some (i + 1), text := "" }),
    contentImages := [{ leadDate := some 1, rest := "x.png" }] }

/-- The dates assigned by the `ingest.mjs` move loop for `n` pairs starting
at `cursor`: skip to a weekday, assign, advance one day (a projection of
`ingestLoop`, relating to it by `ingestLoop_posts_dates`). -/
def ingestDates (cursor : Nat) : Nat → List Nat
  | 0 => []
  | n + 1 =>
    nextWeekdayISO cursor :: ingestDates (nextISO (nextWeekdayISO cursor)) n

/-- A one-slot store (date `9`, image `9.png`) used as a base state. -/
def oneSlotState : PipeState :=
  { emptyState with
    contentPosts := [{ name := isoTxtName 9, endsTxt := true,
                       dateInName := some 9, text := "hello" }],
    contentImages := [{ leadDate := some 9, rest := ".png" }] }

/-- A stray store file that is not a dated text slot: its name does not end
in `".txt"` and contains no date. -/
def strayFile : PostFile :=
  { name := "notes.md", endsTxt := false, dateInName := none, text := "n" }

/-- The one-slot store with one staged pair, used to exercise a normal
allocation run. -/
def c1State : PipeState :=
  { oneSlotState with
    inboxPosts := [{ name := "a.txt", content := "A" }],
    inboxImages := [{ name := "x.png", content := "" }] }

/-- Empty store, one staged pair: the baseline scenario of the spec with
today a weekday. -/
def c2State : PipeState :=
  { emptyState with
    inboxPosts := [{ name := "a.txt", content := "A" }],
    inboxImages := [{ name := "x.png", content := "" }] }

/-- A staged post with a disallowed extension next to a valid staged
image. -/
def c4State : PipeState :=
  { emptyState with
    inboxPosts := [{ name := "bad.pdf", content := "B" }],
    inboxImages := [{ name := "x.png", content := "" }] }

/-- Two staged pairs with a one-line pairing manifest: the manifest's pair
count (1) differs from the staged post count (2). -/
def c8State : PipeState :=
  { emptyState with
    inboxPosts := [{ name := "a.txt", content := "A" },
                   { name := "b.txt", content := "B" }],
    inboxImages := [{ name := "x.png", content := "" },
                    { name := "y.png", content := "" }],
    manifest := some "# pairs\na.txt,x.png\n" }

/-- Three staged posts against one staged image, no manifest: the
count-mismatch scenario of the spec. -/
def c7State : PipeState :=
  { emptyState with
    inboxPosts := [{ name := "a.txt", content := "A" },
                   { name := "b.txt", content := "B" },
                   { name := "c.txt", content := "C" }],
    inboxImages := [{ name := "x.png", content := "" }] }

/-! ## Supporting lemmas for the claim theorems -/

/-! ### Basic facts about the date helpers -/

theorem isWeekdayISO_iff (d : Nat) :
    isWeekdayISO d = true ↔ (1 ≤ d % 7 ∧ d % 7 ≤ 5) := by
  simp [isWeekdayISO]

/-- Closed form of the `nextWeekdayISO` loop: Saturday jumps two days,
Sunday one day, a weekday is returned unchanged. -/
theorem nextWeekdayISO_eq (d : Nat) :
    nextWeekdayISO d =
      if d % 7 = 6 then d + 2 else if d % 7 = 0 then d + 1 else d := by
  have h7 : d % 7 < 7 := Nat.mod_lt _ (by omega)
  rcases Nat.lt_or_ge (d % 7) 1 with h0 | h1
  · -- Sunday
    have h : d % 7 = 0 := by omega
    have h1 : (d + 1) % 7 = 1 := by omega
    simp [nextWeekdayISO, nextWeekdayAux, isWeekdayISO, h, h1]
  · rcases Nat.lt_or_ge (d % 7) 6 with h5 | h6
    · -- weekday
      have hw : isWeekdayISO d = true := by
        rw [isWeekdayISO_iff]; omega
      have hne : d % 7 ≠ 6 := by omega
      have hne0 : d % 7 ≠ 0 := by omega
      simp [nextWeekdayISO, nextWeekdayAux, hw, hne, hne0]
    · -- Saturday
      have h : d % 7 = 6 := by omega
      have ha : (d + 1) % 7 = 0 := by omega
      have hb : (d + 2) % 7 = 1 := by omega
      simp [nextWeekdayISO, nextWeekdayAux, isWeekdayISO, h, ha, hb]

theorem isWeekdayISO_nextWeekdayISO (d : Nat) :
    isWeekdayISO (nextWeekdayISO d) = true := by
  rw [nextWeekdayISO_eq, isWeekdayISO_iff]
  have h7 : d % 7 < 7 := Nat.mod_lt _ (by omega)
  split
  · next h => constructor <;> omega
  · split
    · next h h0 => constructor <;> omega
    · next h h0 => constructor <;> omega

theorem le_nextWeekdayISO (d : Nat) : d ≤ nextWeekdayISO d := by
  rw [nextWeekdayISO_eq]; split <;> [omega; (split <;> omega)]

theorem nextWeekdayISO_le (d : Nat) : nextWeekdayISO d ≤ d + 2 := by
  rw [nextWeekdayISO_eq]; split <;> [omega; (split <;> omega)]

theorem nextWeekdayISO_of_weekday {d : Nat} (h : isWeekdayISO d = true) :
    nextWeekdayISO d = d := by
  rw [isWeekdayISO_iff] at h
  rw [nextWeekdayISO_eq]
  have : d % 7 ≠ 6 := by omega
  have : d % 7 ≠ 0 := by omega
  simp_all

/-! #### Correctness of the fuel bound of the allocation loop -/

theorem filter_ge_length_mono (used : List Nat) {c c' : Nat} (h : c ≤ c') :
    (used.filter (fun x => c' ≤ x)).length ≤
      (used.filter (fun x => c ≤ x)).length := by
  induction used with
  | nil => simp
  | cons a l ih =>
    by_cases h1 : c' ≤ a
    · have h2 : c ≤ a := le_trans h h1
      simp [List.filter_cons, h1, h2]
      omega
    · by_cases h2 : c ≤ a <;> simp [List.filter_cons, h1, h2] <;> omega

theorem filter_ge_length_strict (used : List Nat) {c c' : Nat}
    (hmem : c ∈ used) (h : c < c') :
    (used.filter (fun x => c' ≤ x)).length <
      (used.filter (fun x => c ≤ x)).length := by
  induction used with
  | nil => simp at hmem
  | cons a l ih =>
    rcases List.mem_cons.mp hmem with rfl | hmem'
    · have h1 : ¬ c' ≤ c := by omega
      simp only [List.filter_cons]
      rw [if_neg (by simpa using h1), if_pos (by simp)]
      have hm := filter_ge_length_mono l (le_of_lt h)
      simp only [List.length_cons]
      omega
    · by_cases h1 : c' ≤ a
      · have h2 : c ≤ a := le_trans (le_of_lt h) h1
        simp only [List.filter_cons]
        rw [if_pos (by simpa using h1), if_pos (by simpa using h2)]
        simp only [List.length_cons]
        exact Nat.succ_lt_succ (ih hmem')
      · simp only [List.filter_cons]
        rw [if_neg (by simpa using h1)]
        by_cases h2 : c ≤ a
        · rw [if_pos (by simpa using h2)]
          simp only [List.length_cons]
          exact Nat.lt_succ_of_lt (ih hmem')
        · rw [if_neg (by simpa using h2)]
          exact ih hmem'

theorem freeMeasure_decreases (used : List Nat) (c : Nat)
    (h : (used.contains c || !isWeekdayISO c) = true) :
    freeMeasure used (nextWeekdayISO (addDaysISO c 1)) < freeMeasure used c := by
  have hcc' : c + 1 ≤ nextWeekdayISO (addDaysISO c 1) := by
    have := le_nextWeekdayISO (addDaysISO c 1)
    simpa [addDaysISO] using this
  have hwd : isWeekdayISO (nextWeekdayISO (addDaysISO c 1)) = true :=
    isWeekdayISO_nextWeekdayISO _
  rcases Bool.or_eq_true_iff.mp h with hmem | hwk
  · have hmem' : c ∈ used := by simpa using hmem
    have hlt := filter_ge_length_strict used hmem'
      (show c < nextWeekdayISO (addDaysISO c 1) by omega)
    unfold freeMeasure
    rw [hwd]
    simp only [Bool.not_true, Bool.toNat_false]
    omega
  · have hnw : isWeekdayISO c = false := by
      cases hw : isWeekdayISO c with
      | false => rfl
      | true => rw [hw] at hwk; simp at hwk
    have hmono := filter_ge_length_mono used
      (show c ≤ nextWeekdayISO (addDaysISO c 1) by omega)
    unfold freeMeasure
    rw [hwd, hnw]
    simp only [Bool.not_true, Bool.not_false, Bool.toNat_false, Bool.toNat_true]
    omega

theorem advanceFreeAux_spec (fuel : Nat) :
    ∀ (used : List Nat) (c : Nat), freeMeasure used c < fuel →
      c ≤ advanceFreeAux used fuel c ∧
      isWeekdayISO (advanceFreeAux used fuel c) = true ∧
      advanceFreeAux used fuel c ∉ used := by
  induction fuel with
  | zero => intro used c h; omega
  | succ f ih =>
    intro used c h
    rw [advanceFreeAux]
    cases hcond : (used.contains c || !isWeekdayISO c) with
    | true =>
      rw [if_pos rfl]
      have hdec := freeMeasure_decreases used c hcond
      have hrec := ih used (nextWeekdayISO (addDaysISO c 1)) (by omega)
      have hstep : c ≤ nextWeekdayISO (addDaysISO c 1) := by
        have h1 := le_nextWeekdayISO (addDaysISO c 1)
        have h2 : addDaysISO c 1 = c + 1 := rfl
        omega
      exact ⟨le_trans hstep hrec.1, hrec.2.1, hrec.2.2⟩
    | false =>
      rw [if_neg (by simp)]
      have hmem : used.contains c = false := by
        cases hm : used.contains c with
        | false => rfl
        | true => rw [hm] at hcond; simp at hcond
      have hwd : isWeekdayISO c = true := by
        cases hw : isWeekdayISO c with
        | true => rfl
        | false => rw [hw] at hcond; simp at hcond
      refine ⟨le_refl _, hwd, ?_⟩
      intro hc
      simp at hmem
      exact hmem hc

theorem freeMeasure_lt_fuel (used : List Nat) (c : Nat) :
    freeMeasure used c < used.length + 2 := by
  unfold freeMeasure
  have h1 := List.length_filter_le (fun x => decide (c ≤ x)) used
  have h2 : (!(isWeekdayISO c)).toNat ≤ 1 := by
    cases isWeekdayISO c <;> simp
  omega

theorem advanceFree_le (used : List Nat) (c : Nat) :
    c ≤ advanceFree used c :=
  (advanceFreeAux_spec _ used c (freeMeasure_lt_fuel used c)).1

theorem advanceFree_weekday (used : List Nat) (c : Nat) :
    isWeekdayISO (advanceFree used c) = true :=
  (advanceFreeAux_spec _ used c (freeMeasure_lt_fuel used c)).2.1

theorem advanceFree_not_mem (used : List Nat) (c : Nat) :
    advanceFree used c ∉ used :=
  (advanceFreeAux_spec _ used c (freeMeasure_lt_fuel used c)).2.2

theorem advanceFree_of_free (used : List Nat) (c : Nat)
    (h1 : c ∉ used) (h2 : isWeekdayISO c = true) :
    advanceFree used c = c := by
  unfold advanceFree
  rw [advanceFreeAux]
  rw [if_neg]
  simp [h1, h2]

/-! #### Properties of the allocation loop -/

theorem allocDates_nil (used : List Nat) (cursor : Nat) :
    allocDates used cursor [] = [] := rfl

theorem allocDates_cons (used : List Nat) (cursor : Nat)
    (p : InFile × InFile) (rest : List (InFile × InFile)) :
    allocDates used cursor (p :: rest) =
      advanceFree used cursor ::
        allocDates (advanceFree used cursor :: used)
          (nextWeekdayISO (addDaysISO (advanceFree used cursor) 1)) rest := by
  cases p; rfl

theorem allocDates_length (used : List Nat) (cursor : Nat)
    (pairs : List (InFile × InFile)) :
    (allocDates used cursor pairs).length = pairs.length := by
  induction pairs generalizing used cursor with
  | nil => rfl
  | cons p rest ih => rw [allocDates_cons]; simp [ih]

theorem allocDates_ge (used : List Nat) (cursor : Nat)
    (pairs : List (InFile × InFile)) :
    ∀ d ∈ allocDates used cursor pairs, cursor ≤ d := by
  induction pairs generalizing used cursor with
  | nil => intro d hd; simp [allocDates_nil] at hd
  | cons p rest ih =>
    intro d hd
    rw [allocDates_cons] at hd
    rcases List.mem_cons.mp hd with rfl | hd'
    · exact advanceFree_le used cursor
    · have h1 := ih _ _ d hd'
      have h2 := le_nextWeekdayISO (addDaysISO (advanceFree used cursor) 1)
      have h3 : addDaysISO (advanceFree used cursor) 1 =
          advanceFree used cursor + 1 := rfl
      have h4 := advanceFree_le used cursor
      omega

/-- Every property of one allocation run, in one statement: the assigned
dates are strictly increasing in pair order, weekday-only, outside the
occupied set, and pairwise distinct. -/
theorem allocDates_spec (used : List Nat) (cursor : Nat)
    (pairs : List (InFile × InFile)) :
    List.Pairwise (· < ·) (allocDates used cursor pairs) ∧
    (∀ d ∈ allocDates used cursor pairs, isWeekdayISO d = true) ∧
    (∀ d ∈ allocDates used cursor pairs, d ∉ used) ∧
    (allocDates used cursor pairs).Nodup := by
  induction pairs generalizing used cursor with
  | nil => simp [allocDates_nil]
  | cons p rest ih =>
    rw [allocDates_cons]
    set c := advanceFree used cursor with hc
    obtain ⟨ihPW, ihWD, ihNM, ihND⟩ := ih (c :: used) (nextWeekdayISO (addDaysISO c 1))
    have hge := allocDates_ge (c :: used) (nextWeekdayISO (addDaysISO c 1)) rest
    have hstep : c < nextWeekdayISO (addDaysISO c 1) := by
      have h1 := le_nextWeekdayISO (addDaysISO c 1)
      have h2 : addDaysISO c 1 = c + 1 := rfl
      omega
    refine ⟨?_, ?_, ?_, ?_⟩
    · exact List.pairwise_cons.mpr
        ⟨fun d hd => lt_of_lt_of_le hstep (hge d hd), ihPW⟩
    · intro d hd
      rcases List.mem_cons.mp hd with rfl | hd'
      · exact advanceFree_weekday used cursor
      · exact ihWD d hd'
    · intro d hd
      rcases List.mem_cons.mp hd with rfl | hd'
      · exact advanceFree_not_mem used cursor
      · intro hdu
        exact ihNM d hd' (List.mem_cons_of_mem _ hdu)
    · refine List.nodup_cons.mpr ⟨?_, ihND⟩
      intro hcmem
      exact ihNM c hcmem (List.mem_cons_self _ _)

theorem filter_comm_bool {α : Type} (p q : α → Bool) (l : List α) :
    (l.filter p).filter q = (l.filter q).filter p := by
  rw [List.filter_filter, List.filter_filter]
  refine List.filter_congr ?_
  intro a ha
  cases hp : p a <;> cases hq : q a <;> simp [hp, hq]

theorem foldl_pruneStep (toDelete : List PostFile) :
    ∀ s : PipeState,
      (toDelete.foldl pruneStep s).contentPosts =
        s.contentPosts.filter
          (fun g => !(toDelete.any (fun p => g.name == p.name))) ∧
      (toDelete.foldl pruneStep s).contentImages =
        s.contentImages.filter (fun im => !(toDelete.any (fun p =>
          im.leadDate == p.dateInName && strStartsWith im.rest (".")))) ∧
      (toDelete.foldl pruneStep s).alerts = s.alerts ∧
      (toDelete.foldl pruneStep s).alertsFile = s.alertsFile ∧
      (toDelete.foldl pruneStep s).alertsWrites = s.alertsWrites := by
  induction toDelete with
  | nil => intro s; simp
  | cons p rest ih =>
    intro s
    rw [List.foldl_cons]
    obtain ⟨h1, h2, h3, h4, h5⟩ := ih (pruneStep s p)
    refine ⟨?_, ?_, ?_, ?_, ?_⟩
    · rw [h1]
      have hps : (pruneStep s p).contentPosts =
          s.contentPosts.filter (fun g => !(g.name == p.name)) := rfl
      rw [hps, List.filter_filter]
      refine List.filter_congr ?_
      intro g hg
      cases hb : (g.name == p.name) <;>
        cases hc : rest.any (fun q => g.name == q.name) <;>
          simp [hb, hc]
    · rw [h2]
      have hps : (pruneStep s p).contentImages =
          s.contentImages.filter (fun im =>
            !(im.leadDate == p.dateInName && strStartsWith im.rest ("."))) := rfl
      rw [hps, List.filter_filter]
      refine List.filter_congr ?_
      intro im him
      cases hb : (im.leadDate == p.dateInName && strStartsWith im.rest (".")) <;>
        cases hc : rest.any (fun q =>
            im.leadDate == q.dateInName && strStartsWith im.rest (".")) <;>
          simp [hb, hc]
    · rw [h3]
      rfl
    · rw [h4]
      rfl
    · rw [h5]
      rfl

theorem sorted_nodup_pairwise_lt {l : List Nat} (h : l.Nodup) :
    List.Pairwise (· < ·) (l.insertionSort (· ≤ ·)) := by
  have hs : List.Sorted (· ≤ ·) (l.insertionSort (· ≤ ·)) :=
    List.sorted_insertionSort _ _
  have hnd : (l.insertionSort (· ≤ ·)).Nodup :=
    ((List.perm_insertionSort _ l).nodup_iff).mpr h
  have := List.Pairwise.and hs hnd
  exact this.imp (fun {a b} hab => lt_of_le_of_ne hab.1 hab.2)

theorem sorted_le_getLast :
    ∀ {l : List Nat}, List.Sorted (· ≤ ·) l →
      ∀ {d : Nat}, d ∈ l → ∀ {last : Nat}, l.getLast? = some last → d ≤ last := by
  intro l
  induction l with
  | nil => intro _ d hd; simp at hd
  | cons a t ih =>
    intro hs d hd last hl
    cases t with
    | nil =>
      simp at hd hl
      omega
    | cons b t' =>
      rw [List.getLast?_cons_cons] at hl
      rcases List.mem_cons.mp hd with rfl | hd'
      · have hlast : last ∈ b :: t' := by
          cases hll : (b :: t').getLast? with
          | none => simp at hll
          | some x =>
            rw [hll] at hl
            cases hl
            exact List.mem_of_getLast?_eq_some hll
        exact List.rel_of_sorted_cons hs last hlast
      · exact ih hs.of_cons hd' hl

theorem nextAvailableStartDate_gt (today : Nat) (outPosts : List PostFile) :
    ∀ d ∈ outPosts.filterMap parseISOFromName,
      d < nextAvailableStartDate today outPosts := by
  intro d hd
  have hperm := List.perm_insertionSort (α := Nat) (· ≤ ·)
    (outPosts.filterMap parseISOFromName)
  have hd' : d ∈ (outPosts.filterMap parseISOFromName).insertionSort (· ≤ ·) :=
    hperm.mem_iff.mpr hd
  have hs : List.Sorted (· ≤ ·)
      ((outPosts.filterMap parseISOFromName).insertionSort (· ≤ ·)) :=
    List.sorted_insertionSort _ _
  cases hll : ((outPosts.filterMap parseISOFromName).insertionSort
      (· ≤ ·)).getLast? with
  | none =>
    rw [List.getLast?_eq_none_iff] at hll
    rw [hll] at hd'
    simp at hd'
  | some last =>
    have hle : d ≤ last := sorted_le_getLast hs hd' hll
    have hunf : nextAvailableStartDate today outPosts =
        nextWeekdayISO (if nextISO last < today then today else nextISO last) := by
      simp only [nextAvailableStartDate, hll]
    rw [hunf]
    have h2 : nextISO last = last + 1 := rfl
    by_cases hlt : nextISO last < today
    · rw [if_pos hlt]
      have h1 := le_nextWeekdayISO today
      omega
    · rw [if_neg hlt]
      have h1 := le_nextWeekdayISO (nextISO last)
      omega

theorem ingestDates_spec (n : Nat) : ∀ cursor : Nat,
    List.Pairwise (· < ·) (ingestDates cursor n) ∧
    (∀ d ∈ ingestDates cursor n, isWeekdayISO d = true) ∧
    (∀ d ∈ ingestDates cursor n, cursor ≤ d) := by
  induction n with
  | zero => intro cursor; simp [ingestDates]
  | succ m ih =>
    intro cursor
    obtain ⟨ihPW, ihWD, ihGE⟩ := ih (nextISO (nextWeekdayISO cursor))
    have hstep : ∀ d ∈ ingestDates (nextISO (nextWeekdayISO cursor)) m,
        nextWeekdayISO cursor < d := by
      intro d hd
      have := ihGE d hd
      have h2 : nextISO (nextWeekdayISO cursor) = nextWeekdayISO cursor + 1 := rfl
      omega
    refine ⟨?_, ?_, ?_⟩
    · exact List.pairwise_cons.mpr ⟨hstep, ihPW⟩
    · intro d hd
      rcases List.mem_cons.mp hd with rfl | hd'
      · exact isWeekdayISO_nextWeekdayISO cursor
      · exact ihWD d hd'
    · intro d hd
      rcases List.mem_cons.mp hd with rfl | hd'
      · exact le_nextWeekdayISO cursor
      · have h1 := le_nextWeekdayISO cursor
        have h2 := hstep d hd'
        omega

theorem filterMap_some_comp {α β : Type} (f : α → β) (l : List α) :
    l.filterMap (fun a => some (f a)) = l.map f := by
  induction l with
  | nil => rfl
  | cons a t ih => simp [List.filterMap_cons, ih]

theorem ingestLoop_posts_dates :
    ∀ (prs : List (String × String)) (s : PipeState) (cursor : Nat),
      (ingestLoop s cursor prs).contentPosts.map parseISOFromName =
        s.contentPosts.map parseISOFromName ++
          (ingestDates cursor prs.length).map some := by
  intro prs
  induction prs with
  | nil => intro s cursor; simp [ingestLoop, ingestDates]
  | cons pr rest ih =>
    intro s cursor
    obtain ⟨pn, imn⟩ := pr
    rw [ingestLoop, ih]
    simp [ingestDates, parseISOFromName]

/-- Either an early return assigned nothing, or the assigned dates are an
allocation-loop run seeded with the store's occupied dates. -/
theorem pipelineAssignedDates_cases (today : Nat) (s : PipeState) :
    pipelineAssignedDates today s = [] ∨
    ∃ cursor pairs,
      pipelineAssignedDates today s =
        allocDates ((s.contentPosts.filterMap parseISOFromName).insertionSort
          (· ≤ ·)) cursor pairs := by
  simp only [pipelineAssignedDates]
  split
  · exact Or.inl rfl
  · split
    · exact Or.inl rfl
    · split
      · exact Or.inl rfl
      · split
        · exact Or.inl rfl
        · exact Or.inr ⟨_, _, rfl⟩

/-- The store's dated names after an allocation run are exactly the previous
ones followed by the assigned dates, in order. -/
theorem rename_posts_dates (today : Nat) (s : PipeState) :
    (renameInboxToContent today s).contentPosts.filterMap parseISOFromName =
      s.contentPosts.filterMap parseISOFromName ++
        pipelineAssignedDates today s := by
  simp only [renameInboxToContent, pipelineAssignedDates]
  by_cases h1 : (s.inboxPosts.isEmpty && s.inboxImages.isEmpty) = true
  · rw [if_pos h1, if_pos h1]
    simp
  · rw [if_neg h1, if_neg h1]
    by_cases h2 : ((s.inboxPosts.filter
        (fun f => POST_EXTS.contains (lowerStr (extname f.name)))).insertionSort
          nameLe).length ≠ s.inboxPosts.length
    · rw [if_pos h2, if_pos h2]
      simp
    · rw [if_neg h2, if_neg h2]
      by_cases h3 : ((s.inboxImages.filter
          (fun f => IMAGE_EXTS.contains (lowerStr (extname f.name)))).insertionSort
            nameLe).length ≠ s.inboxImages.length
      · rw [if_pos h3, if_pos h3]
        simp
      · rw [if_neg h3, if_neg h3]
        by_cases h4 : min ((s.inboxPosts.filter
            (fun f => POST_EXTS.contains (lowerStr (extname f.name)))).insertionSort
              nameLe).length ((s.inboxImages.filter
            (fun f => IMAGE_EXTS.contains (lowerStr (extname f.name)))).insertionSort
              nameLe).length = 0
        · rw [if_pos h4, if_pos h4]
          simp
        · rw [if_neg h4, if_neg h4]
          rw [List.filterMap_append]
          congr 1
          rw [allocDates, List.filterMap_map]
          have : (parseISOFromName ∘ fun m : Nat × InFile × InFile =>
              mkContentPost m.1 m.2.1) = fun m => some m.1 := by
            funext m
            rfl
          rw [this]
          exact filterMap_some_comp (fun m : Nat × InFile × InFile => m.1) _

theorem allocLoop_length (used : List Nat) (cursor : Nat)
    (pairs : List (InFile × InFile)) :
    (allocLoop used cursor pairs).length = pairs.length := by
  have h := allocDates_length used cursor pairs
  simpa [allocDates] using h

/-- When every staged extension is allowed and at least one pair can be
formed, the allocation stage takes its main branch: the store grows by
exactly `min(posts, images)` posts and the run reports the created count
and the per-side leftovers. -/
theorem rename_lenient_run (today : Nat) (s : PipeState)
    (hPgood : ∀ f ∈ s.inboxPosts,
      POST_EXTS.contains (lowerStr (extname f.name)) = true)
    (hIgood : ∀ f ∈ s.inboxImages,
      IMAGE_EXTS.contains (lowerStr (extname f.name)) = true)
    (hmin : 0 < min s.inboxPosts.length s.inboxImages.length) :
    (renameInboxToContent today s).contentPosts.length =
      s.contentPosts.length + min s.inboxPosts.length s.inboxImages.length ∧
    ∃ c : Nat, (renameInboxToContent today s).alerts =
      s.alerts ++ [modeMsg c, assocMsg,
        summaryMsg (min s.inboxPosts.length s.inboxImages.length)
          (s.inboxPosts.length - min s.inboxPosts.length s.inboxImages.length)
          (s.inboxImages.length -
            min s.inboxPosts.length s.inboxImages.length)] := by
  have hfP : s.inboxPosts.filter
      (fun f => POST_EXTS.contains (lowerStr (extname f.name))) =
        s.inboxPosts :=
    List.filter_eq_self.mpr hPgood
  have hfI : s.inboxImages.filter
      (fun f => IMAGE_EXTS.contains (lowerStr (extname f.name))) =
        s.inboxImages :=
    List.filter_eq_self.mpr hIgood
  have hsortP : ((s.inboxPosts.filter
      (fun f => POST_EXTS.contains (lowerStr (extname f.name)))).insertionSort
        nameLe).length = s.inboxPosts.length := by
    rw [hfP]
    exact (List.perm_insertionSort nameLe s.inboxPosts).length_eq
  have hsortI : ((s.inboxImages.filter
      (fun f => IMAGE_EXTS.contains (lowerStr (extname f.name)))).insertionSort
        nameLe).length = s.inboxImages.length := by
    rw [hfI]
    exact (List.perm_insertionSort nameLe s.inboxImages).length_eq
  have hPne : s.inboxPosts ≠ [] := by
    intro h
    rw [h] at hmin
    simp at hmin
  have h1 : ¬ ((s.inboxPosts.isEmpty && s.inboxImages.isEmpty) = true) := by
    simp only [Bool.and_eq_true, List.isEmpty_iff]
    intro h
    exact hPne h.1
  have h2 : ¬ (((s.inboxPosts.filter
      (fun f => POST_EXTS.contains (lowerStr (extname f.name)))).insertionSort
        nameLe).length ≠ s.inboxPosts.length) := by
    rw [hsortP]
    exact fun h => h rfl
  have h3 : ¬ (((s.inboxImages.filter
      (fun f => IMAGE_EXTS.contains (lowerStr (extname f.name)))).insertionSort
        nameLe).length ≠ s.inboxImages.length) := by
    rw [hsortI]
    exact fun h => h rfl
  have h4 : ¬ (min ((s.inboxPosts.filter
      (fun f => POST_EXTS.contains (lowerStr (extname f.name)))).insertionSort
        nameLe).length ((s.inboxImages.filter
      (fun f => IMAGE_EXTS.contains (lowerStr (extname f.name)))).insertionSort
        nameLe).length = 0) := by
    rw [hsortP, hsortI]
    omega
  have hmv : (allocLoop
      ((s.contentPosts.filterMap parseISOFromName).insertionSort (· ≤ ·))
      (match ((s.contentPosts.filterMap parseISOFromName).insertionSort
          (· ≤ ·)).getLast? with
        | none => nextWeekdayISO (addDaysISO today 1)
        | some last =>
          if nextWeekdayISO (addDaysISO today 1) <
              nextWeekdayISO (addDaysISO last 1) then
            nextWeekdayISO (addDaysISO last 1)
          else nextWeekdayISO (addDaysISO today 1))
      ((((s.inboxPosts.filter (fun f =>
          POST_EXTS.contains (lowerStr (extname f.name)))).insertionSort
            nameLe).take (min ((s.inboxPosts.filter (fun f =>
          POST_EXTS.contains (lowerStr (extname f.name)))).insertionSort
            nameLe).length ((s.inboxImages.filter (fun f =>
          IMAGE_EXTS.contains (lowerStr (extname f.name)))).insertionSort
            nameLe).length)).zip
        (((s.inboxImages.filter (fun f =>
          IMAGE_EXTS.contains (lowerStr (extname f.name)))).insertionSort
            nameLe).take (min ((s.inboxPosts.filter (fun f =>
          POST_EXTS.contains (lowerStr (extname f.name)))).insertionSort
            nameLe).length ((s.inboxImages.filter (fun f =>
          IMAGE_EXTS.contains (lowerStr (extname f.name)))).insertionSort
            nameLe).length)))).length =
      min s.inboxPosts.length s.inboxImages.length := by
    rw [allocLoop_length, List.length_zip, List.length_take, List.length_take,
      hsortP, hsortI]
    omega
  constructor
  · simp only [renameInboxToContent]
    rw [if_neg h1, if_neg h2, if_neg h3, if_neg h4]
    simp only [List.length_append, List.length_map]
    rw [hmv]
  · refine ⟨(match ((s.contentPosts.filterMap parseISOFromName).insertionSort
        (· ≤ ·)).getLast? with
      | none => nextWeekdayISO (addDaysISO today 1)
      | some last =>
        if nextWeekdayISO (addDaysISO today 1) <
            nextWeekdayISO (addDaysISO last 1) then
          nextWeekdayISO (addDaysISO last 1)
        else nextWeekdayISO (addDaysISO today 1)), ?_⟩
    simp only [renameInboxToContent]
    rw [if_neg h1, if_neg h2, if_neg h3, if_neg h4]
    simp only []
    rw [hmv, hsortP, hsortI]

theorem allocDates_head_of_ne_nil (used : List Nat) (cursor : Nat)
    (pairs : List (InFile × InFile)) (hne : pairs.length ≠ 0)
    (hfree : cursor ∉ used) (hwk : isWeekdayISO cursor = true) :
    (allocDates used cursor pairs).head? = some cursor := by
  cases pairs with
  | nil => simp at hne
  | cons pr rest =>
    rw [allocDates_cons, advanceFree_of_free used cursor hfree hwk]
    rfl

/-- With an empty store and a valid non-empty staging area, the first date
`pipeline.mjs` assigns is `nextWeekdayISO(today + 1)`. -/
theorem pipelineAssignedDates_empty_store (today : Nat) (s : PipeState)
    (hempty : s.contentPosts = [])
    (hPgood : ∀ f ∈ s.inboxPosts,
      POST_EXTS.contains (lowerStr (extname f.name)) = true)
    (hIgood : ∀ f ∈ s.inboxImages,
      IMAGE_EXTS.contains (lowerStr (extname f.name)) = true)
    (hmin : 0 < min s.inboxPosts.length s.inboxImages.length) :
    (pipelineAssignedDates today s).head? =
      some (nextWeekdayISO (addDaysISO today 1)) := by
  have hfP : s.inboxPosts.filter
      (fun f => POST_EXTS.contains (lowerStr (extname f.name))) =
        s.inboxPosts :=
    List.filter_eq_self.mpr hPgood
  have hfI : s.inboxImages.filter
      (fun f => IMAGE_EXTS.contains (lowerStr (extname f.name))) =
        s.inboxImages :=
    List.filter_eq_self.mpr hIgood
  have hsortP : ((s.inboxPosts.filter
      (fun f => POST_EXTS.contains (lowerStr (extname f.name)))).insertionSort
        nameLe).length = s.inboxPosts.length := by
    rw [hfP]
    exact (List.perm_insertionSort nameLe s.inboxPosts).length_eq
  have hsortI : ((s.inboxImages.filter
      (fun f => IMAGE_EXTS.contains (lowerStr (extname f.name)))).insertionSort
        nameLe).length = s.inboxImages.length := by
    rw [hfI]
    exact (List.perm_insertionSort nameLe s.inboxImages).length_eq
  have hPne : s.inboxPosts ≠ [] := by
    intro h
    rw [h] at hmin
    simp at hmin
  have h1 : ¬ ((s.inboxPosts.isEmpty && s.inboxImages.isEmpty) = true) := by
    simp only [Bool.and_eq_true, List.isEmpty_iff]
    intro h
    exact hPne h.1
  have h2 : ¬ (((s.inboxPosts.filter
      (fun f => POST_EXTS.contains (lowerStr (extname f.name)))).insertionSort
        nameLe).length ≠ s.inboxPosts.length) := by
    rw [hsortP]
    exact fun h => h rfl
  have h3 : ¬ (((s.inboxImages.filter
      (fun f => IMAGE_EXTS.contains (lowerStr (extname f.name)))).insertionSort
        nameLe).length ≠ s.inboxImages.length) := by
    rw [hsortI]
    exact fun h => h rfl
  have h4 : ¬ (min ((s.inboxPosts.filter
      (fun f => POST_EXTS.contains (lowerStr (extname f.name)))).insertionSort
        nameLe).length ((s.inboxImages.filter
      (fun f => IMAGE_EXTS.contains (lowerStr (extname f.name)))).insertionSort
        nameLe).length = 0) := by
    rw [hsortP, hsortI]
    omega
  have hunf : pipelineAssignedDates today s =
      allocDates [] (nextWeekdayISO (addDaysISO today 1))
        ((((s.inboxPosts.filter (fun f =>
            POST_EXTS.contains (lowerStr (extname f.name)))).insertionSort
              nameLe).take (min ((s.inboxPosts.filter (fun f =>
            POST_EXTS.contains (lowerStr (extname f.name)))).insertionSort
              nameLe).length ((s.inboxImages.filter (fun f =>
            IMAGE_EXTS.contains (lowerStr (extname f.name)))).insertionSort
              nameLe).length)).zip
          (((s.inboxImages.filter (fun f =>
            IMAGE_EXTS.contains (lowerStr (extname f.name)))).insertionSort
              nameLe).take (min ((s.inboxPosts.filter (fun f =>
            POST_EXTS.contains (lowerStr (extname f.name)))).insertionSort
              nameLe).length ((s.inboxImages.filter (fun f =>
            IMAGE_EXTS.contains (lowerStr (extname f.name)))).insertionSort
              nameLe).length))) := by
    simp only [pipelineAssignedDates]
    rw [if_neg h1, if_neg h2, if_neg h3, if_neg h4, hempty]
    rfl
  rw [hunf]
  have hlen : ((((s.inboxPosts.filter (fun f =>
      POST_EXTS.contains (lowerStr (extname f.name)))).insertionSort
        nameLe).take (min ((s.inboxPosts.filter (fun f =>
      POST_EXTS.contains (lowerStr (extname f.name)))).insertionSort
        nameLe).length ((s.inboxImages.filter (fun f =>
      IMAGE_EXTS.contains (lowerStr (extname f.name)))).insertionSort
        nameLe).length)).zip
      (((s.inboxImages.filter (fun f =>
      IMAGE_EXTS.contains (lowerStr (extname f.name)))).insertionSort
        nameLe).take (min ((s.inboxPosts.filter (fun f =>
      POST_EXTS.contains (lowerStr (extname f.name)))).insertionSort
        nameLe).length ((s.inboxImages.filter (fun f =>
      IMAGE_EXTS.contains (lowerStr (extname f.name)))).insertionSort
        nameLe).length))).length ≠ 0 := by
    rw [List.length_zip, List.length_take, List.length_take, hsortP, hsortI]
    omega
  exact allocDates_head_of_ne_nil _ _ _ hlen (by simp)
    (isWeekdayISO_nextWeekdayISO _)

theorem buildIndexAndOutbox_outbox (today : Nat) (s : PipeState) :
    (buildIndexAndOutbox today s).docsOutbox =
      (buildIndexAndOutbox today s).docsIndex.find? (fun p => p.date == today) := by
  simp only [buildIndexAndOutbox]
  split
  · next tp heq => rw [heq]
  · next heq => rw [heq]; cases h : s.docsOutbox <;> simp [h]

theorem foldl_indexStep (imgs : List ImgFile) (pf : List PostFile) :
    ∀ acc : List IndexEntry × List String,
      pf.foldl (indexStep imgs) acc =
        (acc.1 ++ (pf.filter (hasImage imgs)).map (entryOf imgs),
         acc.2 ++ (pf.filter (fun p => !(hasImage imgs p))).map
           (fun p => missingImgMsg (p.dateInName.getD 0))) := by
  induction pf with
  | nil => intro acc; simp
  | cons p rest ih =>
    intro acc
    rw [List.foldl_cons, ih]
    cases h : imgs.find? (fun im =>
        im.leadDate == p.dateInName && strStartsWith im.rest (".")) with
    | none =>
      have hh : hasImage imgs p = false := by simp [hasImage, h]
      simp [indexStep, h, hh, List.filter_cons]
    | some img =>
      have hh : hasImage imgs p = true := by simp [hasImage, h]
      have he : entryOf imgs p =
          { date := p.dateInName.getD 0, text := p.text, image := img } := by
        simp [entryOf, h]
      simp [indexStep, h, hh, he, List.filter_cons]

/-! ## Claim theorems -/

/-- **C5.** After a run, the outbox singleton artifact exists iff the freshly
built index contains an entry dated today (in the fixed timezone); when it
exists it equals that index entry; and a stale singleton left by a previous
run is deleted when today has no index entry (the final outbox never depends
on the prior one being present). -/
theorem c5_outbox_correctness (today : Nat) (s : PipeState) :
    (mainRun today s).docsOutbox =
      (mainRun today s).docsIndex.find? (fun p => p.date == today) ∧
    ((mainRun today s).docsOutbox.isSome = true ↔
      ∃ e ∈ (mainRun today s).docsIndex, e.date = today) ∧
    ∀ e, (mainRun today s).docsOutbox = some e →
      e ∈ (mainRun today s).docsIndex ∧ e.date = today := by
  have hb := buildIndexAndOutbox_outbox today
    (copyImagesToDocs (pruneTo200 (renameInboxToContent today { s with alerts := [] })))
  have h1 : (mainRun today s).docsOutbox =
      (buildIndexAndOutbox today
        (copyImagesToDocs (pruneTo200
          (renameInboxToContent today { s with alerts := [] })))).docsOutbox := rfl
  have h2 : (mainRun today s).docsIndex =
      (buildIndexAndOutbox today
        (copyImagesToDocs (pruneTo200
          (renameInboxToContent today { s with alerts := [] })))).docsIndex := rfl
  rw [h1, h2, hb]
  refine ⟨rfl, ?_, ?_⟩
  · simp only [List.find?_isSome, beq_iff_eq]
  · intro e he
    refine ⟨List.mem_of_find?_eq_some he, ?_⟩
    simpa using List.find?_some he

/-- **C9.** During index building, a store date whose text artifact has no
image artifact with a matching date prefix is excluded from the emitted
posts list and reported as an anomaly, while the run continues: the emitted
index consists of exactly the date-sorted slots whose image lookup succeeds,
one anomaly message is appended per missing image, the emitted count equals
the number of included entries, index dates are ascending, and the store is
left untouched by the stage. -/
theorem c9_missing_image_excluded (today : Nat) (s : PipeState) :
    (buildIndexAndOutbox today s).docsIndex =
      ((sortedStoreScan s).filter (hasImage s.contentImages)).map
        (entryOf s.contentImages) ∧
    (buildIndexAndOutbox today s).alerts =
      s.alerts ++ ((sortedStoreScan s).filter
        (fun p => !(hasImage s.contentImages p))).map
          (fun p => missingImgMsg (p.dateInName.getD 0)) ∧
    (buildIndexAndOutbox today s).docsIndexCount =
      (buildIndexAndOutbox today s).docsIndex.length ∧
    List.Pairwise (fun a b => a.date ≤ b.date)
      (buildIndexAndOutbox today s).docsIndex ∧
    (buildIndexAndOutbox today s).contentPosts = s.contentPosts ∧
    (buildIndexAndOutbox today s).contentImages = s.contentImages := by
  have hfold := foldl_indexStep s.contentImages (sortedStoreScan s) ([], s.alerts)
  have hsorted : List.Sorted dateLe (sortedStoreScan s) :=
    List.sorted_insertionSort dateLe _
  constructor
  · simp only [buildIndexAndOutbox, hfold] <;> simp
  constructor
  · simp only [buildIndexAndOutbox, hfold] <;> simp
  constructor
  · simp only [buildIndexAndOutbox, hfold] <;> simp
  constructor
  · have hidx : (buildIndexAndOutbox today s).docsIndex =
        ((sortedStoreScan s).filter (hasImage s.contentImages)).map
          (entryOf s.contentImages) := by
      simp only [buildIndexAndOutbox, hfold] <;> simp
    rw [hidx, List.pairwise_map]
    have hsub : List.Pairwise dateLe
        ((sortedStoreScan s).filter (hasImage s.contentImages)) :=
      hsorted.sublist (List.filter_sublist _)
    exact hsub.imp (fun {a b} h => h)
  · exact ⟨rfl, rfl⟩

/-- **C3 (amended).** After the pruning stage, the number of dated slots is
at most the cap (200); when the pre-pruning scan exceeds the cap, exactly
the `count − cap` chronologically oldest slots are deleted — each deleted
slot's text artifact together with every image artifact whose name starts
with that slot's date *followed by a dot* (the source matches
`date + "."`, not the bare date prefix) — and the pruned count is reported
as an informational alert, never as an error (the stage is total and only
appends one message); when the scan is within the cap nothing at all is
removed. -/
theorem c3_prune_spec (s : PipeState) :
    ((sortedStoreScan s).length ≤ MAX_PAIRS → pruneTo200 s = s) ∧
    (MAX_PAIRS < (sortedStoreScan s).length →
      (pruneTo200 s).contentPosts = s.contentPosts.filter
        (fun g => !((pruneDeleteList s).any (fun p => g.name == p.name))) ∧
      (pruneTo200 s).contentImages = s.contentImages.filter
        (fun im => !((pruneDeleteList s).any (fun p =>
          im.leadDate == p.dateInName && strStartsWith im.rest (".")))) ∧
      (pruneTo200 s).alerts =
        s.alerts ++ [pruneMsg ((sortedStoreScan s).length - MAX_PAIRS)] ∧
      (pruneDeleteList s).length = (sortedStoreScan s).length - MAX_PAIRS ∧
      (((pruneTo200 s).contentPosts.filter (fun f => f.endsTxt)).filter
        (fun f => (parseISOFromName f).isSome)).length ≤ MAX_PAIRS) := by
  have hdl : pruneDeleteList s =
      (sortedStoreScan s).take ((sortedStoreScan s).length - MAX_PAIRS) := rfl
  constructor
  · intro hle
    simp only [pruneTo200]
    rw [if_pos hle]
  · intro hgt
    have hnle : ¬ (sortedStoreScan s).length ≤ MAX_PAIRS := by omega
    obtain ⟨hP, hI, hA, hAF, hAW⟩ := foldl_pruneStep (pruneDeleteList s) s
    have hlen : (pruneDeleteList s).length =
        (sortedStoreScan s).length - MAX_PAIRS := by
      rw [hdl, List.length_take]
      omega
    have hunfold : pruneTo200 s =
        { (pruneDeleteList s).foldl pruneStep s with
          alerts := ((pruneDeleteList s).foldl pruneStep s).alerts ++
            [pruneMsg (pruneDeleteList s).length] } := by
      simp only [pruneTo200]
      rw [if_neg hnle, hdl]
    have hP' : (pruneTo200 s).contentPosts =
        s.contentPosts.filter
          (fun g => !((pruneDeleteList s).any (fun p => g.name == p.name))) := by
      rw [hunfold]; exact hP
    refine ⟨hP', ?_, ?_, hlen, ?_⟩
    · rw [hunfold]; exact hI
    · rw [hunfold]
      show ((pruneDeleteList s).foldl pruneStep s).alerts ++
          [pruneMsg (pruneDeleteList s).length] = _
      rw [hA, hlen]
    · -- the qualifying scan after pruning is within the cap
      rw [hP']
      set notDel : PostFile → Bool :=
        fun g => !((pruneDeleteList s).any (fun p => g.name == p.name)) with hnd
      rw [filter_comm_bool notDel (fun f => f.endsTxt),
          filter_comm_bool notDel (fun f => (parseISOFromName f).isSome)]
      have hperm : List.Perm (sortedStoreScan s)
          ((s.contentPosts.filter (fun f => f.endsTxt)).filter
            (fun f => (parseISOFromName f).isSome)) :=
        List.perm_insertionSort dateLe _
      have hlenEq :
          (((s.contentPosts.filter (fun f => f.endsTxt)).filter
            (fun f => (parseISOFromName f).isSome)).filter notDel).length =
          ((sortedStoreScan s).filter notDel).length :=
        ((hperm.filter notDel).length_eq).symm
      rw [hlenEq]
      have hsplit : sortedStoreScan s =
          pruneDeleteList s ++
            (sortedStoreScan s).drop ((sortedStoreScan s).length - MAX_PAIRS) := by
        rw [hdl, List.take_append_drop]
      rw [hsplit, List.filter_append]
      have hnil : (pruneDeleteList s).filter notDel = [] := by
        rw [List.filter_eq_nil_iff]
        intro p hp
        have : (pruneDeleteList s).any (fun q => p.name == q.name) = true :=
          List.any_eq_true.mpr ⟨p, hp, by simp⟩
        simp [hnd, this]
      rw [hnil]
      have hdropLen :
          ((sortedStoreScan s).drop
            ((sortedStoreScan s).length - MAX_PAIRS)).length = MAX_PAIRS := by
        rw [List.length_drop]
        omega
      have := List.length_filter_le notDel
        ((sortedStoreScan s).drop ((sortedStoreScan s).length - MAX_PAIRS))
      simp only [List.nil_append]
      omega

/-- **C3 counterexample.** On a store of 201 dated slots (dates `1..201`)
with one image artifact whose name is the oldest slot's date `1` followed
by `"x.png"`: pruning deletes the oldest slot's text artifact, yet this
image — whose name *is* prefixed by that slot's date — survives, because
the source deletes only images matching `date + "."`.  This falsifies the
claim's "every image artifact whose name is prefixed by that slot's date"
as stated. -/
theorem c3_counterexample :
    (sortedStoreScan c3State).length = 201 ∧
    ((pruneTo200 c3State).contentPosts.any
      (fun f => f.dateInName == some 1)) = false ∧
    (pruneTo200 c3State).contentImages =
      [{ leadDate := some 1, rest := "x.png" }] :=
  ⟨rfl, rfl, rfl⟩

/-- Witness for `c3_prune_spec`: both implications discharged at concrete
states — the empty store is left untouched, and the 201-slot store is
reduced to the cap. -/
theorem c3_prune_spec_witness :
    pruneTo200 emptyState = emptyState ∧
    (((pruneTo200 c3State).contentPosts.filter (fun f => f.endsTxt)).filter
      (fun f => (parseISOFromName f).isSome)).length ≤ MAX_PAIRS :=
  ⟨(c3_prune_spec emptyState).1 (by decide),
   ((c3_prune_spec c3State).2 (by decide)).2.2.2.2⟩

/-- **C10.** A file of the store's posts directory whose name does not end
in `".txt"` or contains no `YYYY-MM-DD` date is ignored by both the pruning
and the index-building stage: adding such a file (with a fresh name)
changes neither the files pruning deletes, nor its alert, nor any part of
the emitted index, anomalies, count or outbox — and the file itself
survives both stages. -/
theorem c10_stray_files_ignored (today : Nat) (s : PipeState) (f : PostFile)
    (hJunk : f.endsTxt = false ∨ f.dateInName = none)
    (hFresh : ∀ g ∈ s.contentPosts, g.name ≠ f.name) :
    (pruneTo200 { s with contentPosts := f :: s.contentPosts }).contentPosts =
      f :: (pruneTo200 s).contentPosts ∧
    (pruneTo200 { s with contentPosts := f :: s.contentPosts }).contentImages =
      (pruneTo200 s).contentImages ∧
    (pruneTo200 { s with contentPosts := f :: s.contentPosts }).alerts =
      (pruneTo200 s).alerts ∧
    f ∈ (pruneTo200 { s with contentPosts := f :: s.contentPosts }).contentPosts ∧
    (buildIndexAndOutbox today
      { s with contentPosts := f :: s.contentPosts }).docsIndex =
      (buildIndexAndOutbox today s).docsIndex ∧
    (buildIndexAndOutbox today
      { s with contentPosts := f :: s.contentPosts }).alerts =
      (buildIndexAndOutbox today s).alerts ∧
    (buildIndexAndOutbox today
      { s with contentPosts := f :: s.contentPosts }).docsIndexCount =
      (buildIndexAndOutbox today s).docsIndexCount ∧
    (buildIndexAndOutbox today
      { s with contentPosts := f :: s.contentPosts }).docsOutbox =
      (buildIndexAndOutbox today s).docsOutbox ∧
    f ∈ (buildIndexAndOutbox today
      { s with contentPosts := f :: s.contentPosts }).contentPosts := by
  set sJ : PipeState := { s with contentPosts := f :: s.contentPosts } with hsJ
  have hscan : sortedStoreScan sJ = sortedStoreScan s := by
    simp only [sortedStoreScan, hsJ]
    congr 1
    rcases hJunk with h | h
    · simp [List.filter_cons, h]
    · by_cases he : f.endsTxt <;>
        simp [List.filter_cons, he, h, parseISOFromName]
  have hdel : pruneDeleteList sJ = pruneDeleteList s := by
    simp only [pruneDeleteList, hscan]
  have hFreshDel : ∀ p ∈ pruneDeleteList s, ¬ (f.name == p.name) = true := by
    intro p hp
    have hp1 : p ∈ sortedStoreScan s := List.mem_of_mem_take hp
    have hp2 : p ∈ (s.contentPosts.filter (fun g => g.endsTxt)).filter
        (fun g => (parseISOFromName g).isSome) :=
      (List.perm_insertionSort dateLe _).mem_iff.mp hp1
    have hp3 : p ∈ s.contentPosts :=
      List.mem_of_mem_filter (List.mem_of_mem_filter hp2)
    have := hFresh p hp3
    simp only [beq_iff_eq]
    intro hcontra
    exact this (hcontra.symm)
  -- the pruning stage
  have hprune :
      (pruneTo200 sJ).contentPosts = f :: (pruneTo200 s).contentPosts ∧
      (pruneTo200 sJ).contentImages = (pruneTo200 s).contentImages ∧
      (pruneTo200 sJ).alerts = (pruneTo200 s).alerts := by
    by_cases hle : (sortedStoreScan s).length ≤ MAX_PAIRS
    · have h1 : pruneTo200 sJ = sJ := by
        simp only [pruneTo200, hscan]
        rw [if_pos hle]
      have h2 : pruneTo200 s = s := by
        simp only [pruneTo200]
        rw [if_pos hle]
      rw [h1, h2]
      exact ⟨rfl, rfl, rfl⟩
    · obtain ⟨hPJ, hIJ, hAJ, hAFJ, hAWJ⟩ := foldl_pruneStep (pruneDeleteList sJ) sJ
      obtain ⟨hPS, hIS, hAS, hAFS, hAWS⟩ := foldl_pruneStep (pruneDeleteList s) s
      have hunfJ : pruneTo200 sJ =
          { (pruneDeleteList sJ).foldl pruneStep sJ with
            alerts := ((pruneDeleteList sJ).foldl pruneStep sJ).alerts ++
              [pruneMsg (pruneDeleteList sJ).length] } := by
        simp only [pruneTo200, hscan]
        rw [if_neg hle]
        simp only [pruneDeleteList, hscan]
      have hunfS : pruneTo200 s =
          { (pruneDeleteList s).foldl pruneStep s with
            alerts := ((pruneDeleteList s).foldl pruneStep s).alerts ++
              [pruneMsg (pruneDeleteList s).length] } := by
        simp only [pruneTo200]
        rw [if_neg hle]
        simp only [pruneDeleteList]
      have hfKept : (!(pruneDeleteList s).any
          (fun p => f.name == p.name)) = true := by
        rw [Bool.not_eq_eq_eq_not]
        simp only [Bool.not_true, List.any_eq_false]
        intro p hp
        exact fun hc => hFreshDel p hp hc
      refine ⟨?_, ?_, ?_⟩
      · rw [hunfJ, hunfS]
        show ((pruneDeleteList sJ).foldl pruneStep sJ).contentPosts =
          f :: ((pruneDeleteList s).foldl pruneStep s).contentPosts
        rw [hPJ, hPS, hdel, hsJ]
        show (f :: s.contentPosts).filter _ = _
        rw [List.filter_cons, if_pos hfKept]
      · rw [hunfJ, hunfS]
        show ((pruneDeleteList sJ).foldl pruneStep sJ).contentImages =
          ((pruneDeleteList s).foldl pruneStep s).contentImages
        rw [hIJ, hIS, hdel, hsJ]
      · rw [hunfJ, hunfS]
        show ((pruneDeleteList sJ).foldl pruneStep sJ).alerts ++
            [pruneMsg (pruneDeleteList sJ).length] = _
        rw [hAJ, hAS, hdel, hsJ]
  obtain ⟨hp1, hp2, hp3⟩ := hprune
  refine ⟨hp1, hp2, hp3, ?_, ?_, ?_, ?_, ?_, ?_⟩
  · rw [hp1]; exact List.mem_cons_self _ _
  · simp only [buildIndexAndOutbox, hscan]
  · simp only [buildIndexAndOutbox, hscan]
  · simp only [buildIndexAndOutbox, hscan]
  · simp only [buildIndexAndOutbox, hscan]
  · show f ∈ sJ.contentPosts
    rw [hsJ]
    exact List.mem_cons_self _ _

/-- **C1.** For every run of the allocation stage: the dates assigned to
the incoming pairs are strictly increasing in pair input order (so the
`i`-th pair receives the `i`-th smallest assigned date), every assigned
date is a weekday, none collides with a pre-existing store date or another
date assigned in the same run, and the store's dated names afterwards are
the previous ones plus the assigned ones; consequently — given that the
pre-existing store dates were unique and weekday-only — after the run all
store dates are unique, weekday-only, and strictly increasing once sorted.
The same invariants hold for the date sequence of the `ingest.mjs`
allocation loop started at its computed baseline. -/
theorem c1_allocation_invariants (today : Nat) (s : PipeState)
    (hND : (s.contentPosts.filterMap parseISOFromName).Nodup)
    (hWD : ∀ d ∈ s.contentPosts.filterMap parseISOFromName,
      isWeekdayISO d = true) :
    List.Pairwise (· < ·) (pipelineAssignedDates today s) ∧
    (∀ d ∈ pipelineAssignedDates today s, isWeekdayISO d = true) ∧
    (∀ d ∈ pipelineAssignedDates today s,
      d ∉ s.contentPosts.filterMap parseISOFromName) ∧
    (pipelineAssignedDates today s).Nodup ∧
    (renameInboxToContent today s).contentPosts.filterMap parseISOFromName =
      s.contentPosts.filterMap parseISOFromName ++
        pipelineAssignedDates today s ∧
    ((renameInboxToContent today s).contentPosts.filterMap
      parseISOFromName).Nodup ∧
    (∀ d ∈ (renameInboxToContent today s).contentPosts.filterMap
      parseISOFromName, isWeekdayISO d = true) ∧
    List.Pairwise (· < ·)
      (((renameInboxToContent today s).contentPosts.filterMap
        parseISOFromName).insertionSort (· ≤ ·)) ∧
    (∀ n : Nat,
      List.Pairwise (· < ·)
        (ingestDates (nextAvailableStartDate today s.contentPosts) n) ∧
      (∀ d ∈ ingestDates (nextAvailableStartDate today s.contentPosts) n,
        isWeekdayISO d = true) ∧
      (∀ d ∈ ingestDates (nextAvailableStartDate today s.contentPosts) n,
        d ∉ s.contentPosts.filterMap parseISOFromName)) := by
  have hmemsort : ∀ d : Nat,
      d ∈ (s.contentPosts.filterMap parseISOFromName).insertionSort (· ≤ ·) ↔
        d ∈ s.contentPosts.filterMap parseISOFromName :=
    fun d => (List.perm_insertionSort (· ≤ ·) _).mem_iff
  have hassigned :
      List.Pairwise (· < ·) (pipelineAssignedDates today s) ∧
      (∀ d ∈ pipelineAssignedDates today s, isWeekdayISO d = true) ∧
      (∀ d ∈ pipelineAssignedDates today s,
        d ∉ s.contentPosts.filterMap parseISOFromName) ∧
      (pipelineAssignedDates today s).Nodup := by
    rcases pipelineAssignedDates_cases today s with h | ⟨cursor, pairs, h⟩
    · rw [h]
      simp
    · rw [h]
      obtain ⟨hPW, hWK, hNM, hDU⟩ := allocDates_spec
        ((s.contentPosts.filterMap parseISOFromName).insertionSort (· ≤ ·))
        cursor pairs
      exact ⟨hPW, hWK,
        fun d hd hmem => hNM d hd ((hmemsort d).mpr hmem), hDU⟩
  obtain ⟨hPW, hWK, hNM, hDU⟩ := hassigned
  have hafter := rename_posts_dates today s
  have hafterND :
      ((renameInboxToContent today s).contentPosts.filterMap
        parseISOFromName).Nodup := by
    rw [hafter, List.nodup_append]
    exact ⟨hND, hDU, fun d hd hd' => hNM d hd' hd⟩
  refine ⟨hPW, hWK, hNM, hDU, hafter, hafterND, ?_, ?_, ?_⟩
  · intro d hd
    rw [hafter] at hd
    rcases List.mem_append.mp hd with hd' | hd'
    · exact hWD d hd'
    · exact hWK d hd'
  · exact sorted_nodup_pairwise_lt hafterND
  · intro n
    obtain ⟨hPW', hWK', hGE'⟩ :=
      ingestDates_spec n (nextAvailableStartDate today s.contentPosts)
    refine ⟨hPW', hWK', ?_⟩
    intro d hd hmem
    have h1 := hGE' d hd
    have h2 := nextAvailableStartDate_gt today s.contentPosts d hmem
    omega

/-- Witness for `c1_allocation_invariants`: one staged pair over the
one-slot store (date `9`), run on Monday day `8`; the pair is scheduled on
day `10` and the store's dated names become `[9, 10]`. -/
theorem c1_allocation_invariants_witness :
    pipelineAssignedDates 8 c1State = [10] ∧
    (renameInboxToContent 8 c1State).contentPosts.filterMap
      parseISOFromName =
      c1State.contentPosts.filterMap parseISOFromName ++
        pipelineAssignedDates 8 c1State ∧
    ((renameInboxToContent 8 c1State).contentPosts.filterMap
      parseISOFromName).Nodup :=
  ⟨rfl,
   (c1_allocation_invariants 8 c1State (by decide) (by decide)).2.2.2.2.1,
   (c1_allocation_invariants 8 c1State (by decide) (by decide)).2.2.2.2.2.1⟩

theorem filter_length_lt {α : Type} (p : α → Bool) (l : List α) (f : α)
    (hf : f ∈ l) (hp : p f = false) : (l.filter p).length < l.length := by
  induction l with
  | nil => simp at hf
  | cons a t ih =>
    rcases List.mem_cons.mp hf with rfl | hf'
    · rw [List.filter_cons, if_neg (by simp [hp])]
      have := List.length_filter_le p t
      simp only [List.length_cons]
      omega
    · rw [List.filter_cons]
      by_cases ha : p a = true
      · rw [if_pos (by simp [ha])]
        simp only [List.length_cons]
        exact Nat.succ_lt_succ (ih hf')
      · rw [if_neg (by simp [ha])]
        have := ih hf'
        simp only [List.length_cons]
        omega

/-- **C4.** If any staged file (post or image) has an extension outside the
fixed allow-list, the run reports exactly one anomaly message, the
allocation stage moves no staged files at all (the state is unchanged
apart from that message), and the full run still executes pruning, index
building and outbox emission against the unchanged store. -/
theorem c4_bad_extension_aborts_allocation (today : Nat) (s : PipeState)
    (hbad : (∃ f ∈ s.inboxPosts,
        POST_EXTS.contains (lowerStr (extname f.name)) = false) ∨
      (∃ f ∈ s.inboxImages,
        IMAGE_EXTS.contains (lowerStr (extname f.name)) = false)) :
    ∃ m : String,
      renameInboxToContent today s = { s with alerts := s.alerts ++ [m] } ∧
      mainRun today s = writeAlerts (buildIndexAndOutbox today
        (copyImagesToDocs (pruneTo200 { s with alerts := [m] }))) := by
  by_cases hbp : ∃ f ∈ s.inboxPosts,
      POST_EXTS.contains (lowerStr (extname f.name)) = false
  · -- a staged post is rejected
    obtain ⟨f, hf, hpf⟩ := hbp
    have key : ∀ t : PipeState, t.inboxPosts = s.inboxPosts →
        t.inboxImages = s.inboxImages →
        renameInboxToContent today t =
          { t with alerts := t.alerts ++ [postExtMsg] } := by
      intro t htP htI
      have hne : ¬ ((t.inboxPosts.isEmpty && t.inboxImages.isEmpty) = true) := by
        rw [htP]
        simp only [Bool.and_eq_true, List.isEmpty_iff]
        intro h
        rw [h.1] at hf
        simp at hf
      have hlt : ((t.inboxPosts.filter
          (fun g => POST_EXTS.contains (lowerStr (extname g.name)))).insertionSort
            nameLe).length ≠ t.inboxPosts.length := by
        rw [htP]
        rw [(List.perm_insertionSort nameLe _).length_eq]
        have := filter_length_lt
          (fun g => POST_EXTS.contains (lowerStr (extname g.name)))
          s.inboxPosts f hf hpf
        omega
      simp only [renameInboxToContent]
      rw [if_neg hne, if_pos hlt]
    refine ⟨postExtMsg, key s rfl rfl, ?_⟩
    show writeAlerts (buildIndexAndOutbox today (copyImagesToDocs (pruneTo200
      (renameInboxToContent today { s with alerts := [] })))) = _
    rw [key { s with alerts := [] } rfl rfl]
    rfl
  · -- all staged posts are fine, so a staged image is rejected
    rcases hbad with hbp' | hbi
    · exact absurd hbp' hbp
    obtain ⟨f, hf, hpf⟩ := hbi
    have hPgood : ∀ g ∈ s.inboxPosts,
        POST_EXTS.contains (lowerStr (extname g.name)) = true := by
      intro g hg
      rcases hb : POST_EXTS.contains (lowerStr (extname g.name)) with _ | _
      · exact absurd ⟨g, hg, hb⟩ hbp
      · rfl
    have key : ∀ t : PipeState, t.inboxPosts = s.inboxPosts →
        t.inboxImages = s.inboxImages →
        renameInboxToContent today t =
          { t with alerts := t.alerts ++ [imgExtMsg] } := by
      intro t htP htI
      have hne : ¬ ((t.inboxPosts.isEmpty && t.inboxImages.isEmpty) = true) := by
        rw [htI]
        simp only [Bool.and_eq_true, List.isEmpty_iff]
        intro h
        rw [h.2] at hf
        simp at hf
      have heq : ¬ (((t.inboxPosts.filter
          (fun g => POST_EXTS.contains (lowerStr (extname g.name)))).insertionSort
            nameLe).length ≠ t.inboxPosts.length) := by
        rw [htP, List.filter_eq_self.mpr hPgood,
          (List.perm_insertionSort nameLe _).length_eq]
        exact fun h => h rfl
      have hlt : ((t.inboxImages.filter
          (fun g => IMAGE_EXTS.contains (lowerStr (extname g.name)))).insertionSort
            nameLe).length ≠ t.inboxImages.length := by
        rw [htI]
        rw [(List.perm_insertionSort nameLe _).length_eq]
        have := filter_length_lt
          (fun g => IMAGE_EXTS.contains (lowerStr (extname g.name)))
          s.inboxImages f hf hpf
        omega
      simp only [renameInboxToContent]
      rw [if_neg hne, if_neg heq, if_pos hlt]
    refine ⟨imgExtMsg, key s rfl rfl, ?_⟩
    show writeAlerts (buildIndexAndOutbox today (copyImagesToDocs (pruneTo200
      (renameInboxToContent today { s with alerts := [] })))) = _
    rw [key { s with alerts := [] } rfl rfl]
    rfl

/-- Witness for `c4_bad_extension_aborts_allocation`: one staged `.pdf`
post next to a valid image. -/
theorem c4_bad_extension_aborts_allocation_witness :
    ∃ m : String,
      renameInboxToContent 8 c4State =
        { c4State with alerts := c4State.alerts ++ [m] } ∧
      mainRun 8 c4State = writeAlerts (buildIndexAndOutbox 8
        (copyImagesToDocs (pruneTo200 { c4State with alerts := [m] }))) :=
  c4_bad_extension_aborts_allocation 8 c4State
    (Or.inl ⟨{ name := "bad.pdf", content := "B" }, by decide, by decide⟩)

theorem rename_alerts_frame (today : Nat) (t : PipeState) :
    (renameInboxToContent today t).alertsFile = t.alertsFile ∧
    (renameInboxToContent today t).alertsWrites = t.alertsWrites := by
  simp only [renameInboxToContent]
  split
  · exact ⟨rfl, rfl⟩
  · split
    · exact ⟨rfl, rfl⟩
    · split
      · exact ⟨rfl, rfl⟩
      · split
        · exact ⟨rfl, rfl⟩
        · exact ⟨rfl, rfl⟩

theorem prune_alerts_frame (t : PipeState) :
    (pruneTo200 t).alertsFile = t.alertsFile ∧
    (pruneTo200 t).alertsWrites = t.alertsWrites := by
  simp only [pruneTo200]
  split
  · exact ⟨rfl, rfl⟩
  · obtain ⟨_, _, _, hF, hW⟩ := foldl_pruneStep
      ((sortedStoreScan t).take ((sortedStoreScan t).length - MAX_PAIRS)) t
    exact ⟨hF, hW⟩

theorem ingestLoop_alerts_frame :
    ∀ (prs : List (String × String)) (t : PipeState) (cursor : Nat),
      (ingestLoop t cursor prs).alertsFile = t.alertsFile ∧
      (ingestLoop t cursor prs).alertsWrites = t.alertsWrites ∧
      (ingestLoop t cursor prs).alerts = t.alerts := by
  intro prs
  induction prs with
  | nil => intro t cursor; exact ⟨rfl, rfl, rfl⟩
  | cons pr rest ih =>
    intro t cursor
    obtain ⟨pn, imn⟩ := pr
    rw [ingestLoop]
    exact ih _ _

/-- **C2 (amended).** If the store is empty and today is a weekday `T`:
the first date the `pipeline.mjs` allocation assigns is the next weekday
strictly after `T`, as the claim states; but `ingest.mjs` computes its
baseline as the next weekday on or after `T` itself, so its first assigned
date is `T` — today — and not a date strictly after it. -/
theorem c2_empty_store_baseline (today : Nat) (s : PipeState)
    (hempty : s.contentPosts = [])
    (hwk : isWeekdayISO today = true)
    (hPgood : ∀ f ∈ s.inboxPosts,
      POST_EXTS.contains (lowerStr (extname f.name)) = true)
    (hIgood : ∀ f ∈ s.inboxImages,
      IMAGE_EXTS.contains (lowerStr (extname f.name)) = true)
    (hmin : 0 < min s.inboxPosts.length s.inboxImages.length) :
    (pipelineAssignedDates today s).head? =
      some (nextWeekdayISO (addDaysISO today 1)) ∧
    today < nextWeekdayISO (addDaysISO today 1) ∧
    (∀ n : Nat,
      (ingestDates (nextAvailableStartDate today s.contentPosts)
        (n + 1)).head? = some today) := by
  refine ⟨pipelineAssignedDates_empty_store today s hempty hPgood hIgood hmin,
    ?_, ?_⟩
  · have h1 := le_nextWeekdayISO (addDaysISO today 1)
    have h2 : addDaysISO today 1 = today + 1 := rfl
    omega
  · intro n
    have hnav : nextAvailableStartDate today s.contentPosts = today := by
      rw [hempty]
      exact nextWeekdayISO_of_weekday hwk
    rw [hnav]
    simp [ingestDates, nextWeekdayISO_of_weekday hwk]

/-- **C2 counterexample.** Store empty, today = Monday (day `8`, a
weekday): the `ingest.mjs` run schedules the staged pair on day `8` —
today itself — whereas the claim requires the first assigned date to be
the next weekday strictly after today (day `9`). -/
theorem c2_counterexample :
    (ingestRun 8 c2State).toOption.map
      (fun t => t.contentPosts.map parseISOFromName) = some [some 8] ∧
    isWeekdayISO 8 = true ∧
    nextWeekdayISO (addDaysISO 8 1) = 9 ∧
    ¬ ((8 : Nat) = 9) :=
  ⟨rfl, rfl, rfl, by omega⟩

/-- Witness for `c2_empty_store_baseline` at the concrete baseline state:
the pipeline schedules tomorrow (day `9`), ingest schedules today. -/
theorem c2_empty_store_baseline_witness :
    (pipelineAssignedDates 8 c2State).head? =
      some (nextWeekdayISO (addDaysISO 8 1)) ∧
    (ingestDates (nextAvailableStartDate 8 c2State.contentPosts) 1).head? =
      some 8 :=
  ⟨(c2_empty_store_baseline 8 c2State rfl (by decide) (by decide) (by decide)
      (by decide)).1,
   (c2_empty_store_baseline 8 c2State rfl (by decide) (by decide) (by decide)
      (by decide)).2.2 0⟩

/-- **C7 (amended).** The two allocation code paths implement the two
mismatch policies in parallel rather than one policy consistently: on the
same staged input with unequal counts (and no manifest consulted for the
check), `pipeline.mjs` is lenient — it allocates exactly
`min(posts, images)` pairs and reports the created count with the surplus
on each side — while `ingest.mjs` is strict — it aborts the whole run with
an `Inbox mismatch` error before moving anything. -/
theorem c7_mismatch_policies (today : Nat) (s : PipeState)
    (hPgood : ∀ f ∈ s.inboxPosts,
      POST_EXTS.contains (lowerStr (extname f.name)) = true)
    (hIgood : ∀ f ∈ s.inboxImages,
      IMAGE_EXTS.contains (lowerStr (extname f.name)) = true)
    (hne : s.inboxPosts.length ≠ s.inboxImages.length)
    (hmin : 0 < min s.inboxPosts.length s.inboxImages.length) :
    (renameInboxToContent today s).contentPosts.length =
      s.contentPosts.length + min s.inboxPosts.length s.inboxImages.length ∧
    (∃ c : Nat, (renameInboxToContent today s).alerts =
      s.alerts ++ [modeMsg c, assocMsg,
        summaryMsg (min s.inboxPosts.length s.inboxImages.length)
          (s.inboxPosts.length - min s.inboxPosts.length s.inboxImages.length)
          (s.inboxImages.length -
            min s.inboxPosts.length s.inboxImages.length)]) ∧
    ingestRun today s =
      .error (mismatchMsg s.inboxPosts.length s.inboxImages.length) := by
  obtain ⟨hlen, hc⟩ := rename_lenient_run today s hPgood hIgood hmin
  refine ⟨hlen, hc, ?_⟩
  have hsp : (s.inboxPosts.insertionSort nameLe).length =
      s.inboxPosts.length :=
    (List.perm_insertionSort nameLe s.inboxPosts).length_eq
  have hsi : (s.inboxImages.insertionSort nameLe).length =
      s.inboxImages.length :=
    (List.perm_insertionSort nameLe s.inboxImages).length_eq
  have h1 : ¬ (((s.inboxPosts.insertionSort nameLe).isEmpty &&
      (s.inboxImages.insertionSort nameLe).isEmpty) = true) := by
    simp only [Bool.and_eq_true, List.isEmpty_iff]
    intro h
    have := h.1
    have hlen0 : (s.inboxPosts.insertionSort nameLe).length = 0 := by
      rw [this]
      rfl
    rw [hsp] at hlen0
    omega
  have h2 : (s.inboxPosts.insertionSort nameLe).length ≠
      (s.inboxImages.insertionSort nameLe).length := by
    rw [hsp, hsi]
    exact hne
  simp only [ingestRun]
  rw [if_neg h1, if_pos h2, hsp, hsi]

/-- **C7 counterexample.** The same staged input — three posts, one image,
no manifest — is handled by the two code paths under opposite policies:
`pipeline.mjs` allocates one pair (the store grows), `ingest.mjs` aborts
with a mismatch error and moves nothing.  The source therefore does not
apply one mismatch policy consistently, refuting the claim as stated. -/
theorem c7_counterexample :
    (renameInboxToContent 8 c7State).contentPosts.length =
      c7State.contentPosts.length + 1 ∧
    ingestRun 8 c7State = .error (mismatchMsg 3 1) ∧
    (ingestRun 8 c7State).toOption = none :=
  ⟨rfl, rfl, rfl⟩

/-- Witness for `c7_mismatch_policies` at the three-posts/one-image
state. -/
theorem c7_mismatch_policies_witness :
    (renameInboxToContent 8 c7State).contentPosts.length =
      c7State.contentPosts.length +
        min c7State.inboxPosts.length c7State.inboxImages.length ∧
    ingestRun 8 c7State =
      .error (mismatchMsg c7State.inboxPosts.length
        c7State.inboxImages.length) :=
  ⟨(c7_mismatch_policies 8 c7State (by decide) (by decide) (by decide)
      (by decide)).1,
   (c7_mismatch_policies 8 c7State (by decide) (by decide) (by decide)
      (by decide)).2.2⟩

theorem find?_filter_ne (l : List InFile) (x y : String) (hxy : y ≠ x) :
    (l.filter (fun f => !(f.name == x))).find? (fun f => f.name == y) =
      l.find? (fun f => f.name == y) := by
  induction l with
  | nil => rfl
  | cons a t ih =>
    by_cases hax : a.name = x
    · rw [List.filter_cons, if_neg (by simp [hax])]
      rw [ih, List.find?_cons_of_neg]
      simp [hax]
      exact fun h => hxy h.symm
    · rw [List.filter_cons, if_pos (by simp [hax])]
      by_cases hay : a.name = y
      · rw [List.find?_cons_of_pos _ (by simp [hay]),
          List.find?_cons_of_pos _ (by simp [hay])]
      · rw [List.find?_cons_of_neg _ (by simp [hay]),
          List.find?_cons_of_neg _ (by simp [hay])]
        exact ih

/-- The move loop consumes, in order, exactly the post contents looked up
by the pair list's post names (pairwise-distinct names). -/
theorem ingestLoop_posts_texts :
    ∀ (prs : List (String × String)) (t : PipeState) (cursor : Nat),
      (prs.map Prod.fst).Nodup →
      (ingestLoop t cursor prs).contentPosts.map (fun f => f.text) =
        t.contentPosts.map (fun f => f.text) ++
          prs.map (fun pr =>
            ((t.inboxPosts.find? (fun f => f.name == pr.1)).map
              (fun f => f.content)).getD "") := by
  intro prs
  induction prs with
  | nil => intro t cursor _; simp [ingestLoop]
  | cons pr rest ih =>
    intro t cursor hnd
    obtain ⟨pn, imn⟩ := pr
    simp only [List.map_cons] at hnd
    obtain ⟨hpn, hrest⟩ := List.nodup_cons.mp hnd
    rw [ingestLoop, ih _ _ hrest]
    have hlook : rest.map (fun pr =>
        (((t.inboxPosts.filter (fun f => !(f.name == pn))).find?
          (fun f => f.name == pr.1)).map (fun f => f.content)).getD "") =
        rest.map (fun pr =>
          ((t.inboxPosts.find? (fun f => f.name == pr.1)).map
            (fun f => f.content)).getD "") := by
      refine List.map_congr_left ?_
      intro q hq
      have hne : q.1 ≠ pn := by
        intro h
        exact hpn (h ▸ List.mem_map_of_mem Prod.fst hq)
      rw [find?_filter_ne _ _ _ hne]
    simp only [hlook]
    simp

/-- The move loop appends, in order, exactly one image per pair, named by
the assigned date and the pair's image extension. -/
theorem ingestLoop_images :
    ∀ (prs : List (String × String)) (t : PipeState) (cursor : Nat),
      (ingestLoop t cursor prs).contentImages.map (fun im => im.rest) =
        t.contentImages.map (fun im => im.rest) ++
          prs.map (fun pr => lowerStr (extname pr.2)) := by
  intro prs
  induction prs with
  | nil => intro t cursor; simp [ingestLoop]
  | cons pr rest ih =>
    intro t cursor
    obtain ⟨pn, imn⟩ := pr
    rw [ingestLoop, ih _ _]
    simp [mkContentImage]

/-- **C8 (amended).** When the pairing manifest parses to at least one
`post,image` pair and validation passes, `ingest.mjs` uses exactly those
pairs, in manifest order: one slot per manifest pair, carrying exactly the
named post's content and the named image's extension.  No comparison of
the manifest's pair count against the staged post count exists: the only
abort condition is the staged post/image count mismatch, checked before
the manifest is read. -/
theorem c8_manifest_pairs_used_verbatim (today : Nat) (s : PipeState)
    (ps : List (String × String))
    (hman : readManifest s.manifest = some ps)
    (hPne : s.inboxPosts ≠ [])
    (hcount : s.inboxPosts.length = s.inboxImages.length)
    (hval : ps.findSome? (validatePair s) = none)
    (hnd : (ps.map Prod.fst).Nodup) :
    ∃ t', ingestRun today s = .ok t' ∧
      t'.contentPosts.map parseISOFromName =
        s.contentPosts.map parseISOFromName ++
          (ingestDates (nextAvailableStartDate today s.contentPosts)
            ps.length).map some ∧
      t'.contentPosts.map (fun f => f.text) =
        s.contentPosts.map (fun f => f.text) ++
          ps.map (fun pr =>
            ((s.inboxPosts.find? (fun f => f.name == pr.1)).map
              (fun f => f.content)).getD "") ∧
      t'.contentImages.map (fun im => im.rest) =
        s.contentImages.map (fun im => im.rest) ++
          ps.map (fun pr => lowerStr (extname pr.2)) := by
  have hsp : (s.inboxPosts.insertionSort nameLe).length =
      s.inboxPosts.length :=
    (List.perm_insertionSort nameLe s.inboxPosts).length_eq
  have hsi : (s.inboxImages.insertionSort nameLe).length =
      s.inboxImages.length :=
    (List.perm_insertionSort nameLe s.inboxImages).length_eq
  have h1 : ¬ (((s.inboxPosts.insertionSort nameLe).isEmpty &&
      (s.inboxImages.insertionSort nameLe).isEmpty) = true) := by
    simp only [Bool.and_eq_true, List.isEmpty_iff]
    intro h
    have hlen0 : (s.inboxPosts.insertionSort nameLe).length = 0 := by
      rw [h.1]
      rfl
    rw [hsp] at hlen0
    exact hPne (List.length_eq_zero.mp hlen0)
  have h2 : ¬ ((s.inboxPosts.insertionSort nameLe).length ≠
      (s.inboxImages.insertionSort nameLe).length) := by
    rw [hsp, hsi]
    exact fun h => h hcount
  have hrun : ingestRun today s =
      .ok (ingestLoop s (nextAvailableStartDate today s.contentPosts) ps) := by
    simp only [ingestRun, hman]
    rw [if_neg h1, if_neg h2, hval]
  exact ⟨_, hrun, ingestLoop_posts_dates ps s _,
    ingestLoop_posts_texts ps s _ hnd, ingestLoop_images ps s _⟩

/-- **C8 counterexample.** The manifest parses to one pair while two posts
are staged (with two images, so the count check passes).  The claim says
this pair-count mismatch aborts allocation with no files moved; instead
the run succeeds, moves exactly the manifest's one pair, and leaves the
second post staged. -/
theorem c8_counterexample :
    readManifest c8State.manifest = some [("a.txt", "x.png")] ∧
    c8State.inboxPosts.length = 2 ∧
    (ingestRun 8 c8State).toOption.map
      (fun t => (t.contentPosts.length, t.inboxPosts.map (fun f => f.name))) =
      some (1, ["b.txt"]) :=
  ⟨rfl, rfl, rfl⟩

/-- Witness for `c8_manifest_pairs_used_verbatim` at the concrete
one-pair-manifest state. -/
theorem c8_manifest_pairs_used_verbatim_witness :
    ∃ t', ingestRun 8 c8State = .ok t' ∧
      t'.contentPosts.map parseISOFromName =
        c8State.contentPosts.map parseISOFromName ++
          (ingestDates (nextAvailableStartDate 8 c8State.contentPosts)
            ([("a.txt", "x.png")] : List (String × String)).length).map some ∧
      t'.contentPosts.map (fun f => f.text) =
        c8State.contentPosts.map (fun f => f.text) ++
          ([("a.txt", "x.png")] : List (String × String)).map (fun pr =>
            ((c8State.inboxPosts.find? (fun f => f.name == pr.1)).map
              (fun f => f.content)).getD "") ∧
      t'.contentImages.map (fun im => im.rest) =
        c8State.contentImages.map (fun im => im.rest) ++
          ([("a.txt", "x.png")] : List (String × String)).map
            (fun pr => lowerStr (extname pr.2)) :=
  c8_manifest_pairs_used_verbatim 8 c8State [("a.txt", "x.png")] rfl
    (by decide) rfl rfl (by decide)

/-- **C6 (amended).** Every `pipeline.mjs` run writes the alerts artifact
exactly once (the write counter increases by exactly one), as a full
overwrite holding exactly the run's in-memory messages — which start from
the empty array each run, so messages never accumulate; and the top-level
catch handler likewise writes it exactly once with the single failure
summary.  The claim fails for `ingest.mjs`, whose runs never write the
alerts artifact at all: a successful ingest run leaves the artifact
exactly as it found it, possibly stale or absent. -/
theorem c6_alerts_written_once (today : Nat) (s : PipeState) (e : String) :
    (mainRun today s).alertsFile = some ((mainRun today s).alerts) ∧
    (mainRun today s).alertsWrites = s.alertsWrites + 1 ∧
    (pipelineCatch e s).alertsFile = some [pipelineErrMsg e] ∧
    (pipelineCatch e s).alertsWrites = s.alertsWrites + 1 ∧
    (∀ t', ingestRun today s = .ok t' →
      t'.alertsFile = s.alertsFile ∧ t'.alertsWrites = s.alertsWrites) := by
  refine ⟨rfl, ?_, rfl, rfl, ?_⟩
  · show (buildIndexAndOutbox today (copyImagesToDocs (pruneTo200
      (renameInboxToContent today
        { s with alerts := [] })))).alertsWrites + 1 = s.alertsWrites + 1
    have h1 : (buildIndexAndOutbox today (copyImagesToDocs (pruneTo200
        (renameInboxToContent today
          { s with alerts := [] })))).alertsWrites =
        (pruneTo200 (renameInboxToContent today
          { s with alerts := [] })).alertsWrites := rfl
    have h2 := (prune_alerts_frame
      (renameInboxToContent today { s with alerts := [] })).2
    have h3 := (rename_alerts_frame today { s with alerts := [] }).2
    rw [h1, h2, h3]
  · intro t' h
    simp only [ingestRun] at h
    split at h
    · cases h
      exact ⟨rfl, rfl⟩
    · split at h
      · cases h
      · split at h
        · cases h
        · cases h
          obtain ⟨h1, h2, _⟩ := ingestLoop_alerts_frame _ s _
          exact ⟨h1, h2⟩

/-- **C6 counterexample.** A successful `ingest.mjs` run (one staged pair,
empty store) terminates with the alerts artifact still absent — no alerts
write happened — contradicting "never absent after a run, written exactly
once every run". -/
theorem c6_counterexample :
    (ingestRun 8 c2State).toOption.map (fun t => t.alertsFile) =
      some none ∧
    (ingestRun 8 c2State).toOption.map (fun t => t.alertsWrites) =
      some 0 ∧
    c2State.alertsFile = none :=
  ⟨rfl, rfl, rfl⟩

/-- Witness for `c6_alerts_written_once`: a pipeline run over the empty
state writes the artifact once; the ingest clause instantiated at the
concrete successful run over `c2State`. -/
theorem c6_alerts_written_once_witness :
    (mainRun 8 emptyState).alertsFile = some ((mainRun 8 emptyState).alerts) ∧
    (mainRun 8 emptyState).alertsWrites = emptyState.alertsWrites + 1 ∧
    (∃ t', ingestRun 8 c2State = .ok t' ∧
      t'.alertsFile = c2State.alertsFile) :=
  ⟨(c6_alerts_written_once 8 emptyState ("boom")).1,
   (c6_alerts_written_once 8 emptyState ("boom")).2.1,
   ⟨_, rfl, ((c6_alerts_written_once 8 c2State ("boom")).2.2.2.2 _ rfl).1⟩⟩

/-- Witness for `c10_stray_files_ignored`: a dateless `.md` file dropped
into a one-slot store is kept by pruning and invisible to the index. -/
theorem c10_stray_files_ignored_witness :
    (pruneTo200 { oneSlotState with
        contentPosts := strayFile :: oneSlotState.contentPosts }).contentPosts =
      strayFile :: (pruneTo200 oneSlotState).contentPosts ∧
    (buildIndexAndOutbox 9 { oneSlotState with
        contentPosts := strayFile :: oneSlotState.contentPosts }).docsIndex =
      (buildIndexAndOutbox 9 oneSlotState).docsIndex :=
  ⟨(c10_stray_files_ignored 9 oneSlotState strayFile (Or.inl (by decide))
      (by decide)).1,
   (c10_stray_files_ignored 9 oneSlotState strayFile (Or.inl (by decide))
      (by decide)).2.2.2.2.1⟩

end ContentPipeline
